import Mathlib

/-!
Verification development for the fuel-station data viewer.

This file gives a shallow embedding of the core of the repository:
the XML normalization pipeline of `src/lib/dataService.ts`, the
query/ranking engine of `src/lib/mapUtils.ts`, and the service-string
splitter of `src/lib/utils.ts`, together with theorems settling the
specification claims against that embedding.

Modelling conventions:
* JavaScript numbers appearing in the embedded code are exact, so they are
  modelled as rationals (`ℚ`); a possibly-`NaN`/`undefined` number is an
  `Option ℚ` with `none` for `NaN`/`undefined`.  Comparisons against
  `none` are `false`, as every comparison against `NaN` is in JavaScript.
* JavaScript strings are `String`/`List Char`; `null`/`undefined` string
  values are `Option String`, and `||`-chains use the string truthiness
  helpers below (the empty string is falsy).
* The DOM tree produced by `DOMParser` is modelled by the inductive `Node`;
  the embedded parser starts from that tree, as the source does after the
  external `DOMParser` call.
* `Array.prototype.sort` is stable (ECMA-262); it is modelled by a stable
  insertion sort, which agrees with any stable sort for the total
  comparator keys used in the source.
-/

namespace GasView

/-- Truthiness of a JS string value: `null`/`undefined` and `""` are falsy. -/
def strTruthy : Option String → Bool
  | some s => s ≠ ""
  | none => false

/-- JS `a || b` on nullable string values: keeps `a` when truthy. -/
def strOr (a b : Option String) : Option String :=
  if strTruthy a then a else b

/-- JS `a || d` with a non-null default, as in `getAttribute(..) || '0'`. -/
def strOrD (a : Option String) (d : String) : String :=
  match a with
  | some s => if s = "" then d else s
  | none => d

/-- Truthiness of a JS number value: `undefined`, `NaN` and `0` are falsy. -/
def numTruthy : Option ℚ → Bool
  | some x => x ≠ 0
  | none => false

/-- JS `a || b` on nullable/NaN numbers (`0` also falls through). -/
def numOr (a b : Option ℚ) : Option ℚ :=
  if numTruthy a then a else b

/-- JS `<` on possibly-`NaN` integers: any comparison with `NaN` is false. -/
def intLt : Option ℤ → Option ℤ → Bool
  | some x, some y => x < y
  | _, _ => false

/-- JS `<=` on possibly-`NaN` integers: any comparison with `NaN` is false. -/
def intLe : Option ℤ → Option ℤ → Bool
  | some x, some y => x ≤ y
  | _, _ => false

/-- Decimal value of a digit string, most significant first
(`'0'`–`'9'` have code points 48–57). -/
def decVal (l : List Char) : ℕ :=
  l.foldl (fun a c => a * 10 + (c.toNat - 48)) 0

/-- Fuel-driven core of decimal printing: emits the digits of `n` in front
of `acc`, least significant digit first into the accumulator. -/
def decDigitsCore : ℕ → ℕ → List Char → List Char
  | 0, _, acc => acc
  | fuel + 1, n, acc =>
    let acc' := Nat.digitChar (n % 10) :: acc
    if n < 10 then acc' else decDigitsCore fuel (n / 10) acc'

/-- Decimal string of a natural number, modelling the JS template-literal
conversion `${suffix}` used for de-duplication suffixes. -/
def natToDecimal (n : ℕ) : String :=
  String.mk (decDigitsCore (n + 1) n [])

/-- JS whitespace test for the characters relevant to the feed
(space, tab, line feed, carriage return). -/
def isJsWS (c : Char) : Bool :=
  c = ' ' || c = '\t' || c = '\n' || c = '\r'

/-- JS `String.prototype.trim` on character lists. -/
def jsTrim (l : List Char) : List Char :=
  (((l.dropWhile isJsWS).reverse.dropWhile isJsWS)).reverse

/-- JS `String.prototype.trim` on strings. -/
def strTrim (s : String) : String :=
  String.mk (jsTrim s.data)

/-- JS `String.prototype.toLowerCase` restricted to ASCII case mapping
(the feed's tag and day names are ASCII; accented text is unaffected on
both sides). -/
def strToLower (s : String) : String :=
  String.mk (s.data.map Char.toLower)

/-- Exact division of a rational by a natural constant, written over a
common denominator (`mkRat`) so that it is kernel-computable; provably
equal to `x / k` (`qDivNat_eq_div` below). -/
def qDivNat (x : ℚ) (k : ℕ) : ℚ :=
  mkRat x.num (x.den * k)

/-- JS `parseFloat` for the sign/integer/fraction grammar used by the feed
(leading whitespace skipped, longest valid prefix parsed, `none` for `NaN`;
exponent suffixes and `Infinity` literals never occur at the embedded call
sites and are not modelled).  The value `sign * (int + frac / 10^len)` is
assembled over the common denominator `10^len` so that it is
kernel-computable. -/
def jsParseFloat (s : String) : Option ℚ :=
  let cs := s.data.dropWhile isJsWS
  let sr : ℤ × List Char :=
    match cs with
    | '-' :: t => (-1, t)
    | '+' :: t => (1, t)
    | t => (1, t)
  let ip := sr.2.takeWhile Char.isDigit
  let r1 := sr.2.dropWhile Char.isDigit
  let fp : List Char :=
    match r1 with
    | '.' :: t => t.takeWhile Char.isDigit
    | _ => []
  if ip = [] ∧ fp = [] then none
  else some (mkRat (sr.1 * ((decVal ip : ℤ) * 10 ^ fp.length + (decVal fp : ℤ)))
    (10 ^ fp.length))

/-- JS `parseInt` restricted to base-10 digit strings as produced by the
`HH:MM` time fields (leading whitespace skipped, `none` for `NaN`). -/
def jsParseInt (s : String) : Option ℤ :=
  let cs := s.data.dropWhile isJsWS
  let sr : ℤ × List Char :=
    match cs with
    | '-' :: t => (-1, t)
    | '+' :: t => (1, t)
    | t => (1, t)
  let ds := sr.2.takeWhile Char.isDigit
  if ds = [] then none else some (sr.1 * (decVal ds : ℤ))

/-- Core of JS non-global `String.prototype.replace` with a plain string
pattern: only the first occurrence is replaced. -/
def replaceFirstCore (p r : List Char) : List Char → List Char
  | [] => if p = [] then r else []
  | c :: cs =>
    if p = [] then r ++ c :: cs
    else if p.isPrefixOf (c :: cs) then r ++ List.drop (p.length - 1) cs
    else c :: replaceFirstCore p r cs

/-- JS `s.replace(pat, rep)` (non-global, string pattern). -/
def jsReplaceFirst (s pat rep : String) : String :=
  String.mk (replaceFirstCore pat.data rep.data s.data)

/-- JS global regex replace for a literal pattern: every non-overlapping
occurrence, scanned left to right, is replaced; the replacement is not
re-scanned. -/
def replaceAll (p r : List Char) : List Char → List Char
  | [] => []
  | c :: cs =>
    if p.isPrefixOf (c :: cs) ∧ p ≠ [] then
      r ++ replaceAll p r (List.drop (p.length - 1) cs)
    else
      c :: replaceAll p r cs
termination_by s => s.length
decreasing_by
  · simp only [List.length_drop, List.length_cons]
    omega
  · simp only [List.length_cons]
    omega

/-- JS `String.prototype.includes` on character lists. -/
def containsSeq (pat : List Char) : List Char → Bool
  | [] => pat = []
  | c :: cs => pat.isPrefixOf (c :: cs) || containsSeq pat cs

/-- JS `String.prototype.includes` on strings. -/
def strIncludes (s pat : String) : Bool :=
  containsSeq pat.data s.data

/-- Fuel-driven core of JS `String.prototype.split` with a string
separator (the fuel is an upper bound on the scanned length, making the
definition structurally recursive and kernel-evaluable). -/
def splitOnSeqGo (sep : List Char) : ℕ → List Char → List (List Char)
  | _, [] => [[]]
  | 0, s => [s]
  | fuel + 1, c :: cs =>
    if sep.isPrefixOf (c :: cs) ∧ sep ≠ [] then
      [] :: splitOnSeqGo sep fuel (List.drop (sep.length - 1) cs)
    else
      match splitOnSeqGo sep fuel cs with
      | [] => [[c]]
      | h :: t => (c :: h) :: t

/-- JS `s.split(sep)` for a non-empty string separator. -/
def splitOnSeq (sep s : List Char) : List (List Char) :=
  splitOnSeqGo sep s.length s

/-- Stable insertion of `a` in front of the first element it sorts
no-later than. -/
def sInsert {α : Type} (le : α → α → Bool) (a : α) : List α → List α
  | [] => [a]
  | b :: bs => if le a b then a :: b :: bs else b :: sInsert le a bs

/-- Stable sort modelling `Array.prototype.sort` (stable per ECMA-262);
for the total comparator keys used in the source every stable sort
produces this order. -/
def stableSort {α : Type} (le : α → α → Bool) : List α → List α
  | [] => []
  | a :: as => sInsert le a (stableSort le as)

/-! ### Data model (`src/types/station.ts`) -/

/-- `TimeRange` of `station.ts`: open/close in `HH:MM` text form. -/
structure TimeRange where
  openT : String
  closeT : String
deriving DecidableEq

/-- `DaySchedule` of `station.ts` (`closed?: boolean; hours?: TimeRange[]`;
the parser always assigns `closed`, so it is modelled as `Bool`). -/
structure DaySchedule where
  closed : Bool
  hours : Option (List TimeRange)
deriving DecidableEq

/-- The seven weekday keys of the `OpeningHours` interface. -/
inductive Weekday where
  | monday | tuesday | wednesday | thursday | friday | saturday | sunday
deriving DecidableEq

/-- `OpeningHours` of `station.ts`: an optional schedule per weekday. -/
structure OpeningHours where
  monday : Option DaySchedule := none
  tuesday : Option DaySchedule := none
  wednesday : Option DaySchedule := none
  thursday : Option DaySchedule := none
  friday : Option DaySchedule := none
  saturday : Option DaySchedule := none
  sunday : Option DaySchedule := none
deriving DecidableEq

/-- Day lookup `station.openingHours[currentDay]`. -/
def OpeningHours.get (oh : OpeningHours) : Weekday → Option DaySchedule
  | .monday => oh.monday
  | .tuesday => oh.tuesday
  | .wednesday => oh.wednesday
  | .thursday => oh.thursday
  | .friday => oh.friday
  | .saturday => oh.saturday
  | .sunday => oh.sunday

/-- Day assignment `openingHours[dayKey] = daySchedule`. -/
def OpeningHours.set (oh : OpeningHours) (d : Weekday) (s : DaySchedule) : OpeningHours :=
  match d with
  | .monday => { oh with monday := some s }
  | .tuesday => { oh with tuesday := some s }
  | .wednesday => { oh with wednesday := some s }
  | .thursday => { oh with thursday := some s }
  | .friday => { oh with friday := some s }
  | .saturday => { oh with saturday := some s }
  | .sunday => { oh with sunday := some s }

/-- `Fuel` of `station.ts` (`price?: number`, kept optional as declared). -/
structure Fuel where
  id : String
  name : String
  price : Option ℚ
  lastUpdate : Option String
deriving DecidableEq

/-- `GasStation` of `station.ts`.  The parser always initializes `fuels`
and `services`, so those are plain lists; the boolean flags are always
assigned by the parser and modelled as `Bool`. -/
structure GasStation where
  id : String
  name : Option String := none
  brand : Option String := none
  address : Option String := none
  city : String
  postalCode : Option String := none
  latitude : Option ℚ := none
  longitude : Option ℚ := none
  fuels : List Fuel := []
  services : List String := []
  lastUpdate : Option String := none
  openingHours : Option OpeningHours := none
  automate24h : Bool := false
  highway : Bool := false
  freeAccess : Bool := false
deriving DecidableEq

/-! ### DOM tree model

`parseXMLData` runs on the element tree produced by the external
`DOMParser`; the embedding starts from that tree.  A node is an element
(tag, attribute list in document order, children) or a text node. -/

inductive Node where
  | elem (tag : String) (attrs : List (String × String)) (children : List Node)
  | text (s : String)

/-- `Element.tagName` (empty for a text node, which never occurs at the
embedded call sites). -/
def Node.tagName : Node → String
  | .elem t _ _ => t
  | .text _ => ""

/-- `Element.getAttribute`: the first attribute with the given name, or
`null`. -/
def Node.getAttr : Node → String → Option String
  | .elem _ attrs _, n => (attrs.find? (fun a => a.1 == n)).map (·.2)
  | .text _, _ => none

mutual
/-- `Node.textContent`: concatenated text of all descendant text nodes. -/
def Node.textContent : Node → String
  | .text s => s
  | .elem _ _ cs => Node.textContentList cs
def Node.textContentList : List Node → String
  | [] => ""
  | n :: ns => Node.textContent n ++ Node.textContentList ns
end

mutual
/-- `querySelectorAll` for a plain tag-name selector: all proper
descendant elements with that tag, in document order. -/
def Node.qsa (sel : String) : Node → List Node
  | .text _ => []
  | .elem _ _ cs => Node.qsaList sel cs
def Node.qsaList (sel : String) : List Node → List Node
  | [] => []
  | n :: ns =>
    (match n with
     | .elem t a c =>
       (if t = sel then [Node.elem t a c] else []) ++ Node.qsa sel (Node.elem t a c)
     | .text _ => []) ++ Node.qsaList sel ns
end

/-- `querySelector`: first match of `querySelectorAll`. -/
def Node.qs (el : Node) (sel : String) : Option Node :=
  (el.qsa sel).head?

/-- `Element.children`: the direct element children. -/
def Node.childElems : Node → List Node
  | .elem _ _ cs => cs.filter (fun c => match c with | .elem _ _ _ => true | .text _ => false)
  | .text _ => []

/-- The `selector → querySelectorAll → break on first non-empty` probing
loop used for stations, fuels, day and time elements (falls through to
the last, empty, result when nothing matches). -/
def probeAll (sels : List String) (el : Node) : List Node :=
  match sels with
  | [] => []
  | s :: rest =>
    let found := el.qsa s
    if found.isEmpty then probeAll rest el else found

/-- The `selector → querySelector → break on first hit` probing loop used
for the opening-hours container. -/
def probeFirst (sels : List String) (el : Node) : Option Node :=
  match sels with
  | [] => none
  | s :: rest =>
    match el.qs s with
    | some found => some found
    | none => probeFirst rest el

/-! ### `dataService.ts`: station normalization -/

/-- The fixed `FUEL_NAMES` code→name table. -/
def FUEL_NAMES (id : String) : Option String :=
  List.lookup id
    [("1", "Gazole"), ("2", "SP95"), ("3", "E85"), ("4", "GPLc"), ("5", "E10"), ("6", "SP98")]

/-- The `while (usedIds.has(uniqueId))` suffix loop; the fuel argument
bounds the iteration count (structural recursion in place of the source's
`while`, with enough fuel to reach the first unused candidate). -/
def dedupIdGo (used : List String) (base : String) : ℕ → String → ℕ → String
  | 0, cand, _ => cand
  | fuel + 1, cand, suffix =>
    if used.contains cand then
      dedupIdGo used base fuel (base ++ "-" ++ natToDecimal suffix) (suffix + 1)
    else cand

/-- ID de-duplication against the per-parse `usedIds` set: starting from
the candidate id, append `-{n}` for `n = 1, 2, …` until the id is unused
(`used.length + 1` candidate checks always suffice). -/
def dedupId (used : List String) (base : String) : String :=
  dedupIdGo used base (used.length + 1) base 1

/-- The candidate day-element selectors of `parseOpeningHours`. -/
def daySelectors : List String := ["jour", "day", "horaire", "schedule"]

/-- The candidate time-range selectors of `parseOpeningHours`. -/
def timeSelectors : List String := ["horaire", "hours", "time", "schedule"]

/-- The `dayMapping` name→weekday table (full French and English names
plus abbreviated forms). -/
def dayMapping (s : String) : Option Weekday :=
  List.lookup s
    [("lundi", .monday), ("mardi", .tuesday), ("mercredi", .wednesday),
     ("jeudi", .thursday), ("vendredi", .friday), ("samedi", .saturday),
     ("dimanche", .sunday),
     ("monday", .monday), ("tuesday", .tuesday), ("wednesday", .wednesday),
     ("thursday", .thursday), ("friday", .friday), ("saturday", .saturday),
     ("sunday", .sunday),
     ("lun", .monday), ("mar", .tuesday), ("mer", .wednesday),
     ("jeu", .thursday), ("ven", .friday), ("sam", .saturday), ("dim", .sunday)]

/-- Closed-day detection of `parseOpeningHours` (explicit flag attribute,
or text content signalling closure; `strToLower` is ASCII-only, which
agrees with JS on the lowercase feed text). -/
def dayIsClosed (dayElement : Node) : Bool :=
  dayElement.getAttr "ferme" == some "1" ||
  dayElement.getAttr "closed" == some "1" ||
  strIncludes (strToLower dayElement.textContent) "fermé" ||
  strIncludes (strToLower dayElement.textContent) "closed"

/-- One time-range record from a `horaire`-style element
(`ouverture/open/start` and `fermeture/close/end` attribute chains). -/
def timeRangeOfEl (horaire : Node) : TimeRange :=
  { openT := strOrD (strOr (horaire.getAttr "ouverture")
      (strOr (horaire.getAttr "open") (horaire.getAttr "start"))) ""
    closeT := strOrD (strOr (horaire.getAttr "fermeture")
      (strOr (horaire.getAttr "close") (horaire.getAttr "end"))) "" }

/-- The per-day body of `parseOpeningHours`'s `forEach`. -/
def parseDayElement (oh : OpeningHours) (dayElement : Node) : OpeningHours :=
  let dayName := strOrD (strOr (dayElement.getAttr "nom")
    (strOr (dayElement.getAttr "name") (dayElement.getAttr "day")))
    (strToLower dayElement.tagName)
  let isClosed := dayIsClosed dayElement
  match dayMapping (strToLower dayName) with
  | none => oh
  | some dayKey =>
    let base : DaySchedule := { closed := isClosed, hours := none }
    let daySchedule :=
      if isClosed then base
      else
        let horaireElements := probeAll timeSelectors dayElement
        if horaireElements.isEmpty then base
        else
          let timeRanges := (horaireElements.map timeRangeOfEl).filter
            (fun r => r.openT != "" && r.closeT != "")
          if timeRanges.isEmpty then base else { base with hours := some timeRanges }
    oh.set dayKey daySchedule

/-- `parseOpeningHours`: probe day elements and build the weekday map
(the unstructured-text branch of the source only logs and returns the
empty map). -/
def parseOpeningHours (horairesElement : Node) : OpeningHours :=
  let dayElements := probeAll daySelectors horairesElement
  dayElements.foldl parseDayElement {}

/-- The candidate fuel-element selectors. -/
def fuelSelectors : List String := ["prix", "fuel", "carburant", "price", "essence"]

/-- The fuel id attribute chain of the primary parser. -/
def fuelIdOfEl (prix : Node) : Option String :=
  strOr (prix.getAttr "nom") (strOr (prix.getAttr "id")
    (strOr (prix.getAttr "type") (strOr (prix.getAttr "name") (prix.getAttr "code"))))

/-- The fuel price text chain of the primary parser (attribute candidates,
then trimmed element text). -/
def fuelPriceStrOfEl (prix : Node) : String :=
  strOrD (strOr (prix.getAttr "valeur") (strOr (prix.getAttr "price")
    (strOr (prix.getAttr "prix") (prix.getAttr "value"))))
    (strTrim prix.textContent)

/-- Truthiness test `fuelPrice > 0` on a possibly-`NaN` number. -/
def numGtZero : Option ℚ → Bool
  | some x => 0 < x
  | none => false

/-- Price normalization `fuelPrice > 10 ? fuelPrice / 1000 : fuelPrice`
(the division in kernel-computable form). -/
def normalizePrice (p : ℚ) : ℚ :=
  if 10 < p then qDivNat p 1000 else p

/-- The per-fuel body of the primary parser: parse the price text (comma
decimal separator replaced by a dot), keep the fuel only when an id is
present and the parsed price is strictly positive. -/
def processFuel (prix : Node) : Option Fuel :=
  let fuelId := fuelIdOfEl prix
  let fuelPriceStr := fuelPriceStrOfEl prix
  let fuelPrice : Option ℚ :=
    if fuelPriceStr = "" then some 0
    else jsParseFloat (jsReplaceFirst fuelPriceStr "," ".")
  let fuelUpdate := strOr (prix.getAttr "maj") (strOr (prix.getAttr "last_update")
    (strOr (prix.getAttr "date") (prix.getAttr "update")))
  if strTruthy fuelId ∧ numGtZero fuelPrice then
    some { id := strOrD fuelId ""
           name := strOrD (FUEL_NAMES (strOrD fuelId "")) (strOrD fuelId "")
           price := fuelPrice.map normalizePrice
           lastUpdate := if strTruthy fuelUpdate then fuelUpdate else none }
  else none

/-- The candidate service selectors (the loop does not break: every
selector's matches are appended). -/
def serviceSelectors : List String := ["service", "services", "equipement", "equipment"]

/-- Service name of an element: trimmed text content, else the
`nom`/`name`/`type` attribute chain. -/
def serviceNameOfEl (el : Node) : Option String :=
  strOr (some (strTrim el.textContent))
    (strOr (el.getAttr "nom") (strOr (el.getAttr "name") (el.getAttr "type")))

/-- First service pass: for every selector, push every non-empty service
name found under the station element (no de-duplication). -/
def servicesPassOne (pdv : Node) : List String :=
  serviceSelectors.foldl (fun acc sel =>
    (pdv.qsa sel).foldl (fun acc2 service =>
      match serviceNameOfEl service with
      | some n => if n ≠ "" then acc2 ++ [n] else acc2
      | none => acc2) acc) []

/-- One step of the second service pass: a direct child element whose tag
name contains `service` contributes its name only when non-empty and not
already present. -/
def serviceChildStep (services : List String) (child : Node) : List String :=
  if child.tagName != "" && strIncludes (strToLower child.tagName) "service" then
    let n := strOr (some (strTrim child.textContent))
      (strOr (child.getAttr "nom") (child.getAttr "name"))
    match n with
    | some s => if s ≠ "" ∧ ¬ services.contains s then services ++ [s] else services
    | none => services
  else services

/-- Second service pass: direct child elements whose tag name contains
`service`; a name is pushed only when not already present. -/
def servicesPassTwo (pdv : Node) (start : List String) : List String :=
  pdv.childElems.foldl serviceChildStep start

/-- Both service passes of the primary parser. -/
def servicesOfPdv (pdv : Node) : List String :=
  servicesPassTwo pdv (servicesPassOne pdv)

/-- The candidate opening-hours container selectors. -/
def hourSelectors : List String := ["horaires", "opening_hours", "hours", "horaire"]

/-- The raw latitude text of the primary parser
(`latitude`/`lat`/`y` attribute chain with default `'0'`). -/
def latRawStr (pdv : Node) : String :=
  strOrD (strOr (pdv.getAttr "latitude") (strOr (pdv.getAttr "lat") (pdv.getAttr "y"))) "0"

/-- The raw longitude text of the primary parser
(`longitude`/`lng`/`lon`/`x` attribute chain with default `'0'`). -/
def lonRawStr (pdv : Node) : String :=
  strOrD (strOr (pdv.getAttr "longitude") (strOr (pdv.getAttr "lng")
    (strOr (pdv.getAttr "lon") (pdv.getAttr "x")))) "0"

/-- Fixed-point coordinate conversion
`raw ? raw / 100000 : undefined`, applied to one axis (the division in
kernel-computable form). -/
def convertCoord (raw : Option ℚ) : Option ℚ :=
  if numTruthy raw then raw.map (fun x => qDivNat x 100000) else none

/-- `x || undefined`: truthy string values survive, everything else
becomes absent. -/
def strOrU (a : Option String) : Option String :=
  if strTruthy a then a else none

/-- The synthesized address of the primary parser: direct address text or
attribute chain, else `num nom_rue route`-style components joined with a
space. -/
def fullAddressOfPdv (pdv : Node) : Option String :=
  let roadType := strOr (pdv.getAttr "route") (pdv.getAttr "road")
  let roadName := strOr (pdv.getAttr "nom_rue") (pdv.getAttr "nom_voie")
  let streetNumber := strOr (pdv.getAttr "num") (pdv.getAttr "numero")
  let xmlAddress := (pdv.qs "adresse").map (fun el => strTrim el.textContent)
  let direct := strOr xmlAddress (strOr (pdv.getAttr "adresse")
    (strOr (pdv.getAttr "address") (strOr (pdv.getAttr "rue")
    (strOr (pdv.getAttr "voie") (strOr (pdv.getAttr "addr") (pdv.getAttr "street"))))))
  if strTruthy direct then direct
  else if strTruthy streetNumber || strTruthy roadName || strTruthy roadType then
    let addressParts := [streetNumber, roadName, roadType].filterMap strOrU
    if addressParts.isEmpty then direct else some (String.intercalate " " addressParts)
  else direct

/-- One station record of the primary parser, built from its element, its
index in the station list and the `usedIds` set accumulated so far. -/
def stationOfPdv (usedIds : List String) (index : ℕ) (pdv : Node) : GasStation :=
  let xmlCity := (pdv.qs "ville").map (fun el => strTrim el.textContent)
  let stationId := strOrD (strOr (pdv.getAttr "id")
    (strOr (pdv.getAttr "station_id") (pdv.getAttr "code")))
    ("station-" ++ natToDecimal index)
  let uniqueId := dedupId usedIds stationId
  let rawLatitude := jsParseFloat (latRawStr pdv)
  let rawLongitude := jsParseFloat (lonRawStr pdv)
  let brand := strOr (pdv.getAttr "marque") (strOr (pdv.getAttr "brand")
    (strOr (pdv.getAttr "enseigne") (pdv.getAttr "nom")))
  { id := uniqueId
    latitude := convertCoord rawLatitude
    longitude := convertCoord rawLongitude
    city := strOrD (strOr xmlCity (strOr (pdv.getAttr "ville")
      (strOr (pdv.getAttr "city") (strOr (pdv.getAttr "commune") (pdv.getAttr "localite"))))) ""
    postalCode := strOrU (strOr (pdv.getAttr "cp") (strOr (pdv.getAttr "postal_code")
      (strOr (pdv.getAttr "code_postal") (pdv.getAttr "codepostal"))))
    address := strOrU (fullAddressOfPdv pdv)
    fuels := (probeAll fuelSelectors pdv).filterMap processFuel
    services := servicesOfPdv pdv
    lastUpdate := strOrU (strOr (pdv.getAttr "maj") (strOr (pdv.getAttr "last_update")
      (strOr (pdv.getAttr "date_maj") (pdv.getAttr "update"))))
    automate24h := pdv.getAttr "automate-24-24" == some "1" ||
      pdv.getAttr "automate_24h" == some "1" || pdv.getAttr "automate24h" == some "1"
    highway := pdv.getAttr "autoroute" == some "1" ||
      pdv.getAttr "highway" == some "1" || pdv.getAttr "autorute" == some "1"
    freeAccess := pdv.getAttr "libre-service" == some "1" ||
      pdv.getAttr "free_access" == some "1" || pdv.getAttr "libre_service" == some "1"
    name := strOrU brand
    brand := strOrU brand
    openingHours := (probeFirst hourSelectors pdv).map parseOpeningHours }

/-- Station acceptance (`station.id && (city || latitude || fuels.length
> 0 || brand)`). -/
def stationAccepted (st : GasStation) : Bool :=
  st.id != "" &&
    (st.city != "" || numTruthy st.latitude || st.fuels.length > 0 || strTruthy st.brand)

/-- The `forEach` over station elements: build each record, consume its
unique id, and keep it only when accepted. -/
def parsePdvList : List Node → ℕ → List String → List GasStation
  | [], _, _ => []
  | pdv :: rest, index, usedIds =>
    let st := stationOfPdv usedIds index pdv
    (if stationAccepted st then [st] else []) ++ parsePdvList rest (index + 1) (st.id :: usedIds)

/-- The candidate station-container selectors. -/
def possibleSelectors : List String :=
  ["pdv", "station", "point-de-vente", "pdv_id", "gasStation", "fuel-station"]

/-- `parseXMLData` from the parsed element tree onward: probe the station
container selectors and normalize every station element (`none` models
the source throwing its no-station-elements diagnostic `Error`; the
mojibake/structural text repair happens before `DOMParser`, i.e. before
this tree exists, and is embedded separately as `applyEncodingFixes`). -/
def parseXMLData (root : Node) : Option (List GasStation) :=
  let pdvElements := probeAll possibleSelectors root
  if pdvElements.isEmpty then none
  else some (parsePdvList pdvElements 0 [])

/-! ### `dataService.ts`: fallback regex parser

The fallback parser scans `<pdv …>…</pdv>` blocks with regular
expressions executed by the JS engine.  A `FallbackBlock` holds the
capture results those scans produce for one block; the normalization
applied to them is embedded below, faithful to the source. -/

/-- Captures extracted from one `<pdv>` block: the attribute key/value
pairs in match order, the `<adresse>`/`<ville>` element captures, the
fuel-regex captures `(nom, valeur, maj?)`, and the service-regex capture
(`none` for a self-closing tag without text). -/
structure FallbackBlock where
  attrs : List (String × String)
  adresseText : Option String := none
  villeText : Option String := none
  fuelMatches : List (String × String × Option String) := []
  serviceMatches : List (Option String) := []

/-- Attribute lookup on a block: JS object assignment lets a later
duplicate key overwrite an earlier one, so the last occurrence wins. -/
def FallbackBlock.attr (b : FallbackBlock) (n : String) : Option String :=
  List.lookup n b.attrs.reverse

/-- The per-fuel body of the fallback parser (same price normalization
and positivity filter as the primary parser, canonical field names
only). -/
def processFuelFB (m : String × String × Option String) : Option Fuel :=
  let fuelId := m.1
  let fuelPrice := jsParseFloat (jsReplaceFirst m.2.1 "," ".")
  if fuelId ≠ "" ∧ numGtZero fuelPrice then
    some { id := fuelId
           name := strOrD (FUEL_NAMES fuelId) fuelId
           price := fuelPrice.map normalizePrice
           lastUpdate := strOrU m.2.2 }
  else none

/-- Fallback address synthesis (same component joining as the primary
parser, attribute candidates only). -/
def fullAddressOfBlock (b : FallbackBlock) : Option String :=
  let roadType := strOr (b.attr "route") (b.attr "road")
  let roadName := strOr (b.attr "nom_rue") (b.attr "nom_voie")
  let streetNumber := strOr (b.attr "num") (b.attr "numero")
  let xmlAddress := b.adresseText.map strTrim
  let direct := strOr xmlAddress (strOr (b.attr "adresse")
    (strOr (b.attr "address") (strOr (b.attr "rue")
    (strOr (b.attr "voie") (strOr (b.attr "addr") (b.attr "street"))))))
  if strTruthy direct then direct
  else if strTruthy streetNumber || strTruthy roadName || strTruthy roadType then
    let addressParts := [streetNumber, roadName, roadType].filterMap strOrU
    if addressParts.isEmpty then direct else some (String.intercalate " " addressParts)
  else direct

/-- One station record of the fallback parser. -/
def stationOfBlock (usedIds : List String) (index : ℕ) (b : FallbackBlock) : GasStation :=
  let xmlCity := b.villeText.map strTrim
  let stationId := strOrD (b.attr "id") ("station-" ++ natToDecimal index)
  let uniqueId := dedupId usedIds stationId
  let rawLatitude := jsParseFloat (strOrD (b.attr "latitude") "0")
  let rawLongitude := jsParseFloat (strOrD (b.attr "longitude") "0")
  let brand := b.attr "marque"
  { id := uniqueId
    latitude := convertCoord rawLatitude
    longitude := convertCoord rawLongitude
    city := strOrD (strOr xmlCity (strOr (b.attr "ville") (b.attr "city"))) ""
    postalCode := strOrU (strOr (b.attr "cp")
      (strOr (b.attr "postal_code") (b.attr "code_postal")))
    address := strOrU (fullAddressOfBlock b)
    fuels := b.fuelMatches.filterMap processFuelFB
    services := b.serviceMatches.foldl (fun acc m =>
      match m with
      | some raw => let n := strTrim raw; if n ≠ "" then acc ++ [n] else acc
      | none => acc) []
    lastUpdate := strOrU (b.attr "maj")
    automate24h := b.attr "automate-24-24" == some "1"
    highway := b.attr "autoroute" == some "1"
    freeAccess := b.attr "libre-service" == some "1"
    name := strOrU brand
    brand := strOrU brand
    openingHours := none }

/-- The fallback `while` loop body over matched blocks. -/
def parseBlockList : List FallbackBlock → ℕ → List String → List GasStation
  | [], _, _ => []
  | b :: rest, index, usedIds =>
    let st := stationOfBlock usedIds index b
    (if stationAccepted st then [st] else []) ++ parseBlockList rest (index + 1) (st.id :: usedIds)

/-- `parseXMLWithFallback` from the regex captures onward; the
`index < 10000` guard caps the number of processed blocks. -/
def parseXMLWithFallback (blocks : List FallbackBlock) : List GasStation :=
  parseBlockList (blocks.take 10000) 0 []

/-! ### `dataService.ts`: mojibake repair table -/

/-- The ordered `encodingFixes` table applied before parsing, written as
(pattern, replacement) character lists exactly as in the source — in
particular the third entry is the two-character sequence `â€`, and the
fourth and fifth entries (the en-dash and em-dash rules) share the
identical three-character pattern `â€"`. -/
def encodingFixes : List (List Char × List Char) :=
  [ (['â', '€', '™'], ['\''])
  , (['â', '€', 'œ'], ['"'])
  , (['â', '€'], ['"'])
  , (['â', '€', '"'], ['–'])
  , (['â', '€', '"'], ['—'])
  , (['Ã', '©'], ['é'])
  , (['Ã', '¨'], ['è'])
  , (['Ã', 'ª'], ['ê'])
  , (['Ã', '¯'], ['ï'])
  , (['Ã', '®'], ['î'])
  , (['Ã', '´'], ['ô'])
  , (['Ã', '¹'], ['ù'])
  , (['Ã', '»'], ['û'])
  , (['Ã', '¼'], ['ü'])
  , (['Ã', ' '], ['à'])
  , (['Ã', '¢'], ['â'])
  , (['Ã', '§'], ['ç'])
  , (['Ã', '‰'], ['É'])
  , (['Ã', '€'], ['À'])
  , (['Ã', '‡'], ['Ç'])
  , (['飨'], ['é'])
  , (['锚'], ['à'])
  , (['豥'], ['è'])
  , (['蠢'], ['ç'])
  , (['铆'], ['î'])
  , (['么'], ['ô'])
  , (['霉'], ['ù'])
  , (['赂'], ['û'])
  , (['露'], ['ï'])
  , (['脺'], ['ü'])
  , (['茅'], ['é'])
  , (['脿'], ['à'])
  , (['猫'], ['è'])
  , (['漏'], ['ù'])
  , (['锄'], ['ç']) ]

/-- Application of a repair table in order: each entry is one global
replace over the whole text. -/
def applyFixes (table : List (List Char × List Char)) (s : List Char) : List Char :=
  table.foldl (fun acc fix => replaceAll fix.1 fix.2 acc) s

/-- The full `encodingFixes` pass of the source. -/
def applyEncodingFixes (s : List Char) : List Char :=
  applyFixes encodingFixes s

/-! ### `dataService.ts`: fetch attempt loop

`fetchGasStationData` walks a fixed list of (endpoint, proxy) attempts in
order; each attempt either yields a payload or records its failure in
`lastError` and control moves on.  The network/zip/decode work of one
attempt is external I/O, so an attempt is modelled by its outcome,
`Except String String`; the loop and the final aggregated error are
embedded from the source. -/

/-- The remediation block of the final error message (verbatim from the
source template literal). -/
def remediationText : String :=
  "Possible solutions:\n1. The API might be temporarily down\n2. CORS restrictions are blocking all proxy attempts\n3. Network connectivity issues\n4. The data format might have changed\n\nPlease try again in a few minutes or check the browser" ++
    String.mk ['\''] ++ "s developer console for more details."

/-- The aggregated error thrown after every attempt failed:
`Failed to fetch … Last error: ⟨last failure or 'Unknown error'⟩. \n\n⟨remediation⟩`. -/
def mkFinalError (lastMsg : Option String) : String :=
  "Failed to fetch data from all endpoints. Last error: " ++
    strOrD lastMsg "Unknown error" ++ ". \n\n" ++ remediationText

/-- The attempt loop: first successful payload short-circuits; a failure
is recorded as the most recent error and the next attempt runs. -/
def fetchLoop : List (Except String String) → Option String → Except String String
  | [], lastError => .error (mkFinalError lastError)
  | .ok payload :: _, _ => .ok payload
  | .error e :: rest, _ => fetchLoop rest (some e)

/-- `fetchGasStationData` over the outcomes of its ordered attempt
list. -/
def fetchGasStationData (attempts : List (Except String String)) : Except String String :=
  fetchLoop attempts none

/-! ### `mapUtils.ts`: query/filter engine

`calculateDistance` is the haversine formula over `Math.sin`/`cos`/
`atan2`; those transcendental functions have no exact rational value, so
the distance function is an explicit parameter `dist` of the query
functions (every claim settled here is independent of its values). -/

/-- `topNOrderBy` of the `MapFilters` interface. -/
inductive OrderBy where
  | distance
  | price
deriving DecidableEq

/-- `MapFilters` of `station.ts` (`null` fields are `none`). -/
structure MapFilters where
  fuelType : String
  maxStations : Option ℕ := none
  maxPrice : Option ℚ := none
  maxDistance : Option ℚ := none
  location : String := ""
  userLatitude : Option ℚ := none
  userLongitude : Option ℚ := none
  topN : Option ℕ := none
  topNOrderBy : OrderBy := .distance

/-- A station with the transient `distance`/`selectedFuelPrice`
annotations of the query results (`filterStationsForMap` never assigns
`selectedFuelPrice`; it stays `none` there). -/
structure AnnStation where
  station : GasStation
  distance : Option ℚ := none
  selectedFuelPrice : Option ℚ := none
deriving DecidableEq

/-- `filters.fuelType && filters.fuelType !== 'all'`. -/
def fuelTypeActive (filters : MapFilters) : Bool :=
  filters.fuelType != "" && filters.fuelType != "all"

/-- `station.fuels.some(fuel => fuel.name === filters.fuelType)`. -/
def hasFuelType (st : GasStation) (ft : String) : Bool :=
  st.fuels.any (fun f => f.name == ft)

/-- The max-price clause: with a price cap and a specific fuel selected,
reject a station whose selected fuel is missing, has a falsy price, or
exceeds the cap. -/
def failsMaxPrice (filters : MapFilters) (st : GasStation) : Bool :=
  match filters.maxPrice with
  | none => false
  | some maxPrice =>
    if fuelTypeActive filters then
      match st.fuels.find? (fun f => f.name == filters.fuelType) with
      | none => true
      | some fuel =>
        match fuel.price with
        | none => true
        | some p => if p = 0 then true else decide (maxPrice < p)
    else false

/-- The shared station predicate of `filterStationsForMap` and
`getTopNStations`: coordinates must be truthy, then the fuel-type and
max-price clauses apply. -/
def mapFilterPred (filters : MapFilters) (st : GasStation) : Bool :=
  if !(numTruthy st.latitude) || !(numTruthy st.longitude) then false
  else if fuelTypeActive filters && !(hasFuelType st filters.fuelType) then false
  else if failsMaxPrice filters st then false
  else true

/-- `a <= b` on possibly-absent rationals, false against `none`
(mirrors JS comparisons against `undefined`). -/
def qLe : Option ℚ → Option ℚ → Bool
  | some x, some y => x ≤ y
  | _, _ => false

/-- Comparator order induced by `(keyA || Infinity) - (keyB || Infinity)`:
`none` is `Infinity`; two `Infinity` keys compare as equal (the `NaN`
comparator result leaves their relative order unchanged). -/
def infLe : Option ℚ → Option ℚ → Bool
  | some x, some y => x ≤ y
  | some _, none => true
  | none, some _ => false
  | none, none => true

/-- The filter stage of `filterStationsForMap` (before distance
annotation). -/
def fsmBase (filters : MapFilters) (stations : List GasStation) : List AnnStation :=
  (stations.filter (mapFilterPred filters)).map (fun st => { station := st })

/-- The distance annotation and max-distance stage of
`filterStationsForMap`, active only when a user location is set. -/
def fsmWithDistance (dist : ℚ → ℚ → ℚ → ℚ → ℚ) (filters : MapFilters)
    (l : List AnnStation) : List AnnStation :=
  match filters.userLatitude, filters.userLongitude with
  | some uLat, some uLon =>
    let l2 := l.map (fun a =>
      { a with distance := some (dist uLat uLon
          (a.station.latitude.getD 0) (a.station.longitude.getD 0)) })
    match filters.maxDistance with
    | some _ => l2.filter (fun a => a.distance.isSome && qLe a.distance filters.maxDistance)
    | none => l2
  | _, _ => l

/-- Sort key `(a.distance || 0)` of the distance comparators in
`filterStationsForMap`. -/
def distKeyZero (a : AnnStation) : ℚ :=
  match numOr a.distance (some 0) with
  | some d => d
  | none => 0

/-- Sort key `(fuel?.price || Infinity)` of the per-fuel price comparator
in `filterStationsForMap`. -/
def priceKeyInf (ft : String) (a : AnnStation) : Option ℚ :=
  numOr ((a.station.fuels.find? (fun f => f.name == ft)).bind (·.price)) none

/-- `filterStationsForMap`: filter, annotate distances, then the Top-N
branch (sort by the chosen key and truncate) or the default
distance-sort/max-stations branch. -/
def filterStationsForMap (dist : ℚ → ℚ → ℚ → ℚ → ℚ)
    (stations : List GasStation) (filters : MapFilters) : List AnnStation :=
  let fs := fsmWithDistance dist filters (fsmBase filters stations)
  match filters.topN with
  | some n =>
    let sorted :=
      if filters.topNOrderBy == OrderBy.distance &&
          filters.userLatitude.isSome && filters.userLongitude.isSome then
        stableSort (fun a b => decide (distKeyZero a ≤ distKeyZero b)) fs
      else if filters.topNOrderBy == OrderBy.price && fuelTypeActive filters then
        stableSort (fun a b => infLe (priceKeyInf filters.fuelType a)
          (priceKeyInf filters.fuelType b)) fs
      else fs
    sorted.take n
  | none =>
    let fs2 :=
      if filters.userLatitude.isSome && filters.userLongitude.isSome then
        stableSort (fun a b => decide (distKeyZero a ≤ distKeyZero b)) fs
      else fs
    match filters.maxStations with
    | some m => fs2.take m
    | none => fs2

/-- The cheapest-priced-fuel selection of `getTopNStations` for
`fuelType === 'all'`: keep fuels with truthy price, sort ascending by
price, take the head's price. -/
def cheapestFuelPrice (st : GasStation) : Option ℚ :=
  ((stableSort (fun a b => decide ((a.price.getD 0) ≤ (b.price.getD 0)))
    (st.fuels.filter (fun f => numTruthy f.price))).head?).bind (·.price)

/-- The filter-and-annotate stage of `getTopNStations`: the shared
predicate, then per-station `distance` and `selectedFuelPrice`
annotations. -/
def topNBase (dist : ℚ → ℚ → ℚ → ℚ → ℚ) (stations : List GasStation)
    (filters : MapFilters) : List AnnStation :=
  (stations.filter (mapFilterPred filters)).map (fun st =>
    let distance : Option ℚ :=
      match filters.userLatitude, filters.userLongitude with
      | some uLat, some uLon =>
        some (dist uLat uLon (st.latitude.getD 0) (st.longitude.getD 0))
      | _, _ => none
    let selectedFuelPrice : Option ℚ :=
      if fuelTypeActive filters then
        (st.fuels.find? (fun f => f.name == filters.fuelType)).bind (·.price)
      else if filters.fuelType == "all" && st.fuels.length > 0 then
        cheapestFuelPrice st
      else none
    { station := st, distance := distance, selectedFuelPrice := selectedFuelPrice })

/-- The max-distance stage of `getTopNStations`. -/
def topNAfterDistance (filters : MapFilters) (l : List AnnStation) : List AnnStation :=
  if filters.maxDistance.isSome &&
      filters.userLatitude.isSome && filters.userLongitude.isSome then
    l.filter (fun a => a.distance.isSome && qLe a.distance filters.maxDistance)
  else l

/-- `getTopNStations`: empty without `topN`; otherwise filter, annotate,
apply the max-distance stage, sort by the selected criterion when its
guard holds, and truncate to the first `topN`. -/
def getTopNStations (dist : ℚ → ℚ → ℚ → ℚ → ℚ)
    (stations : List GasStation) (filters : MapFilters) : List AnnStation :=
  match filters.topN with
  | none => []
  | some n =>
    let l := topNAfterDistance filters (topNBase dist stations filters)
    let sorted :=
      if filters.topNOrderBy == OrderBy.distance &&
          filters.userLatitude.isSome && filters.userLongitude.isSome then
        stableSort (fun a b => infLe (numOr a.distance none) (numOr b.distance none)) l
      else if filters.topNOrderBy == OrderBy.price && fuelTypeActive filters then
        stableSort (fun a b => infLe (numOr a.selectedFuelPrice none)
          (numOr b.selectedFuelPrice none)) l
      else l
    sorted.take n

/-- `isStationOpen` at an explicit evaluation instant: the source reads
`currentDay`/`currentTime` (HHMM) from `new Date()`; they are parameters
here.  A station with no opening-hours data is open; a missing or closed
day schedule is closed; a schedule without explicit hours is open; else
some time range must match, with overnight ranges (`close < open`)
wrapping around midnight. -/
def isStationOpenAt (station : GasStation) (currentDay : Weekday)
    (currentTime : ℤ) : Bool :=
  match station.openingHours with
  | none => true
  | some oh =>
    match oh.get currentDay with
    | none => false
    | some daySchedule =>
      if daySchedule.closed then false
      else
        match daySchedule.hours with
        | none => true
        | some hrs =>
          if hrs.length = 0 then true
          else hrs.any (fun timeRange =>
            let openTime := jsParseInt (jsReplaceFirst timeRange.openT ":" "")
            let closeTime := jsParseInt (jsReplaceFirst timeRange.closeT ":" "")
            if intLt closeTime openTime then
              intLe openTime (some currentTime) || intLe (some currentTime) closeTime
            else
              intLe openTime (some currentTime) && intLe (some currentTime) closeTime)

/-! ### `utils.ts`: `parseServices` -/

/-- The separator list of `parseServices`, in priority order. -/
def separators : List String :=
  [" // ", "//", " / ", "/", " - ", "-", ",", ";"]

/-- One separator pass: split every current piece that contains the
separator, keep the others. -/
def splitPass (sep : List Char) (services : List (List Char)) : List (List Char) :=
  services.flatMap (fun sv => if containsSeq sep sv then splitOnSeq sep sv else [sv])

/-- `parseServices`: empty input yields no services; otherwise apply every
separator pass in order, trim each piece, and keep the non-empty ones. -/
def parseServices (serviceString : String) : List String :=
  if serviceString = "" then []
  else
    let pieces := separators.foldl (fun svs sep => splitPass sep.data svs) [serviceString.data]
    (((pieces.map jsTrim).filter (fun l => l.length > 0)).map String.mk)

/-! ### Spec-side ranking definition

Written from the specification's words, for comparison against the
code-side `getTopNStations`: "when orderBy = price and no specific fuel
type is selected, the ranking key is each station's cheapest available
fuel price", i.e. the first `n` stations of the input sorted ascending by
cheapest fuel price, stations without a priced fuel last. -/
def specTopNByCheapestPrice (stations : List GasStation) (n : ℕ) : List GasStation :=
  (stableSort (fun a b => infLe (cheapestFuelPrice a) (cheapestFuelPrice b)) stations).take n

/-! ### Concrete instances used by the theorems -/

/-- A trivial stand-in for the abstract distance function in concrete
evaluations whose claims do not depend on distance values. -/
def dist0 : ℚ → ℚ → ℚ → ℚ → ℚ := fun _ _ _ _ => 0

/-- A station element whose raw longitude is exactly `0` while the raw
latitude is a normal fixed-point value. -/
def exPdvC2 : Node :=
  .elem "pdv" [("id", "1001"), ("latitude", "4620100"), ("longitude", "0"), ("ville", "Paris")] []

/-- A document holding `exPdvC2`. -/
def exRootC2 : Node := .elem "pdv_liste" [] [exPdvC2]

/-- A station element with both raw coordinates nonzero. -/
def exPdvC2b : Node :=
  .elem "pdv" [("id", "1002"), ("latitude", "4620100"), ("longitude", "520100"),
    ("ville", "Paris")] []

/-- A station element with two `<service>` children carrying the same
text. -/
def exPdvC6 : Node :=
  .elem "pdv" [("id", "2002"), ("marque", "Marque")]
    [.elem "service" [] [.text "Lavage"], .elem "service" [] [.text "Lavage"]]

/-- A document holding `exPdvC6`. -/
def exRootC6 : Node := .elem "pdv_liste" [] [exPdvC6]

/-- A station element with a single `<service>` child. -/
def exPdvC6b : Node :=
  .elem "pdv" [("id", "2003"), ("marque", "Marque")]
    [.elem "service" [] [.text "Lavage"]]

/-- A document with two station elements sharing the same raw id. -/
def exRootC4 : Node :=
  .elem "pdv_liste" []
    [ .elem "pdv" [("id", "7"), ("ville", "Lyon")] []
    , .elem "pdv" [("id", "7"), ("ville", "Nice")] [] ]

/-- A fuel element with id `1` and comma-decimal price text `1,750`. -/
def exPrixC3 : Node := .elem "prix" [("nom", "1"), ("valeur", "1,750")] []

/-- The fuel record `exPrixC3` normalizes to (`mkRat 7 4` is the reduced
form of the parsed price `1.750`). -/
def exFuelC3 : Fuel :=
  { id := "1", name := "Gazole", price := some (mkRat 7 4), lastUpdate := none }

/-- Station `A`: coordinates present, one fuel priced `2`. -/
def stA : GasStation :=
  { id := "A", city := "Aville", latitude := some 1, longitude := some 1
    fuels := [{ id := "1", name := "Gazole", price := some 2, lastUpdate := none }] }

/-- Station `B`: coordinates present, one fuel priced `1` (cheaper than
`stA`'s). -/
def stB : GasStation :=
  { id := "B", city := "Bville", latitude := some 1, longitude := some 1
    fuels := [{ id := "1", name := "Gazole", price := some 1, lastUpdate := none }] }

/-- Filters with Top-N enabled, ordering by price, and no specific fuel
type selected. -/
def fC1 : MapFilters :=
  { fuelType := "all", topN := some 1, topNOrderBy := .price }

/-- The single overnight range `22:00`–`06:00` as a day schedule. -/
def exOvernightDay : DaySchedule :=
  { closed := false, hours := some [{ openT := "22:00", closeT := "06:00" }] }

/-- A station whose Monday schedule is `exOvernightDay`. -/
def exStation22 : GasStation :=
  { id := "N", city := "Nuitville"
    openingHours := some { monday := some exOvernightDay } }

/-! ## Helper lemmas -/

theorem qDivNat_eq_div (x : ℚ) (k : ℕ) : qDivNat x k = x / k := by
  rcases Nat.eq_zero_or_pos k with rfl | hk
  · simp [qDivNat]
  · rw [qDivNat, Rat.mkRat_eq_div]
    have hkq : ((k : ℚ)) ≠ 0 := by
      exact_mod_cast Nat.pos_iff_ne_zero.mp hk
    push_cast
    rw [div_mul_eq_div_div, Rat.num_div_den]

theorem mem_sInsert {α : Type} (le : α → α → Bool) (x a : α) (l : List α) :
    a ∈ sInsert le x l ↔ a = x ∨ a ∈ l := by
  induction l with
  | nil => simp [sInsert]
  | cons b bs ih =>
    simp only [sInsert]
    by_cases h : le x b = true
    · simp [h]
    · simp only [h, if_neg, Bool.not_eq_true, List.mem_cons, ih]
      tauto

theorem mem_stableSort {α : Type} (le : α → α → Bool) (a : α) (l : List α) :
    a ∈ stableSort le l ↔ a ∈ l := by
  induction l with
  | nil => simp [stableSort]
  | cons b bs ih => simp [stableSort, mem_sInsert, ih]

theorem containsSeq_single_false {c : Char} {l : List Char}
    (h : containsSeq [c] l = false) : c ∉ l := by
  induction l with
  | nil => simp
  | cons d ds ih =>
    simp only [containsSeq, List.isPrefixOf, Bool.or_eq_false_iff,
      Bool.and_eq_false_iff] at h
    intro hmem
    rcases List.mem_cons.mp hmem with rfl | hmem
    · rcases h.1 with h1 | h1
      · simp at h1
      · simp [List.isPrefixOf] at h1
    · exact ih h.2 hmem

theorem decVal_foldl_shift (l : List Char) :
    ∀ a : ℕ, l.foldl (fun a c => a * 10 + (c.toNat - 48)) a
      = a * 10 ^ l.length + decVal l := by
  induction l with
  | nil => intro a; simp [decVal]
  | cons c cs ih =>
    intro a
    simp only [List.foldl_cons, List.length_cons, decVal] at *
    rw [ih (a * 10 + (c.toNat - 48)), ih (0 * 10 + (c.toNat - 48))]
    ring

theorem digitChar_toNat_sub (d : ℕ) (h : d < 10) : (Nat.digitChar d).toNat - 48 = d := by
  interval_cases d <;> rfl

theorem decVal_decDigitsCore :
    ∀ (fuel n : ℕ) (acc : List Char), n < 10 ^ fuel →
      decVal (decDigitsCore fuel n acc) = n * 10 ^ acc.length + decVal acc := by
  intro fuel
  induction fuel with
  | zero =>
    intro n acc h
    simp only [pow_zero, Nat.lt_one_iff] at h
    subst h
    simp [decDigitsCore]
  | succ fuel ih =>
    intro n acc h
    have hmod : n % 10 < 10 := Nat.mod_lt _ (by norm_num)
    have hacc : decVal (Nat.digitChar (n % 10) :: acc)
        = (n % 10) * 10 ^ acc.length + decVal acc := by
      simp only [decVal, List.foldl_cons]
      rw [decVal_foldl_shift, digitChar_toNat_sub _ hmod]
      simp [decVal]
    simp only [decDigitsCore]
    by_cases hlt : n < 10
    · simp only [hlt, if_true]
      rw [hacc, Nat.mod_eq_of_lt hlt]
    · simp only [hlt, if_false]
      have hdiv : n / 10 < 10 ^ fuel := by
        rw [Nat.div_lt_iff_lt_mul (by norm_num : (0:ℕ) < 10)]
        calc n < 10 ^ (fuel + 1) := h
        _ = 10 ^ fuel * 10 := by ring
      rw [ih (n / 10) _ hdiv, hacc]
      have hnm : n / 10 * 10 + n % 10 = n := by omega
      simp only [List.length_cons]
      calc n / 10 * 10 ^ (acc.length + 1) + ((n % 10) * 10 ^ acc.length + decVal acc)
          = (n / 10 * 10 + n % 10) * 10 ^ acc.length + decVal acc := by ring
      _ = n * 10 ^ acc.length + decVal acc := by rw [hnm]

theorem decVal_natToDecimal (n : ℕ) : decVal (natToDecimal n).data = n := by
  have hbound : n < 10 ^ (n + 1) := by
    calc n < 2 ^ n := Nat.lt_two_pow n
    _ ≤ 10 ^ n := Nat.pow_le_pow_left (by norm_num) n
    _ ≤ 10 ^ (n + 1) := Nat.pow_le_pow_right (by norm_num) (Nat.le_succ n)
  have := decVal_decDigitsCore (n + 1) n [] hbound
  simpa [natToDecimal, decVal] using this

theorem natToDecimal_injective : Function.Injective natToDecimal := by
  intro a b h
  have := congrArg (fun s => decVal s.data) h
  simpa [decVal_natToDecimal] using this

theorem length_le_decDigitsCore :
    ∀ (fuel n : ℕ) (acc : List Char), acc.length ≤ (decDigitsCore fuel n acc).length := by
  intro fuel
  induction fuel with
  | zero => intro n acc; simp [decDigitsCore]
  | succ fuel ih =>
    intro n acc
    simp only [decDigitsCore]
    by_cases hlt : n < 10
    · simp [hlt]
    · simp only [hlt, if_false]
      calc acc.length ≤ (Nat.digitChar (n % 10) :: acc).length := by simp
      _ ≤ _ := ih (n / 10) (Nat.digitChar (n % 10) :: acc)

theorem natToDecimal_data_ne_nil (n : ℕ) : (natToDecimal n).data ≠ [] := by
  have h : (1 : ℕ) ≤ ((natToDecimal n).data).length := by
    show 1 ≤ (decDigitsCore (n + 1) n []).length
    simp only [decDigitsCore]
    by_cases hlt : n < 10
    · simp [hlt]
    · simp only [hlt, if_false]
      calc 1 = ([Nat.digitChar (n % 10)] : List Char).length := by simp
      _ ≤ _ := length_le_decDigitsCore n (n / 10) [Nat.digitChar (n % 10)]
  intro hc
  rw [hc] at h
  simp at h

/-- The candidate string `base ++ "-" ++ natToDecimal j` is injective
in `j`. -/
theorem suffixCand_injective (base : String) :
    Function.Injective (fun j : ℕ => base ++ "-" ++ natToDecimal j) := by
  intro a b h
  simp only at h
  have hdata := congrArg String.data h
  rw [String.data_append, String.data_append, String.data_append,
    String.data_append, List.append_assoc, List.append_assoc] at hdata
  have h2 : (natToDecimal a).data = (natToDecimal b).data :=
    List.append_cancel_left (List.append_cancel_left hdata)
  have h3 : decVal (natToDecimal a).data = decVal (natToDecimal b).data := by rw [h2]
  rwa [decVal_natToDecimal, decVal_natToDecimal] at h3

/-- If the suffix loop ends inside `used`, every candidate it has tried
was in `used`. -/
theorem dedupIdGo_mem (used : List String) (base : String) :
    ∀ (fuel : ℕ) (cand : String) (suffix : ℕ),
      dedupIdGo used base fuel cand suffix ∈ used →
      cand ∈ used ∧
        ∀ j : ℕ, suffix ≤ j → j < suffix + fuel → (base ++ "-" ++ natToDecimal j) ∈ used := by
  intro fuel
  induction fuel with
  | zero =>
    intro cand suffix h
    simp only [dedupIdGo] at h
    exact ⟨h, fun j h1 h2 => absurd h2 (by omega)⟩
  | succ fuel ih =>
    intro cand suffix h
    simp only [dedupIdGo] at h
    by_cases hc : used.contains cand = true
    · rw [if_pos hc] at h
      have hcand : cand ∈ used := by simpa using hc
      obtain ⟨h1, h2⟩ := ih (base ++ "-" ++ natToDecimal suffix) (suffix + 1) h
      refine ⟨hcand, fun j hj1 hj2 => ?_⟩
      by_cases hje : j = suffix
      · subst hje; exact h1
      · exact h2 j (by omega) (by omega)
    · rw [if_neg hc] at h
      exact absurd (by simpa using h) (by simpa using hc)

/-- The de-duplicated id is never in the used set: `used.length + 1`
candidate checks always reach an unused candidate. -/
theorem dedupId_not_mem (used : List String) (base : String) :
    dedupId used base ∉ used := by
  intro h
  obtain ⟨-, hall⟩ := dedupIdGo_mem used base (used.length + 1) base 1 h
  set f : ℕ → String := fun j => base ++ "-" ++ natToDecimal j with hf
  set cands : List String := (List.range' 1 (used.length + 1)).map f with hcands
  have hsub : ∀ s ∈ cands, s ∈ used := by
    intro s hs
    rw [hcands, List.mem_map] at hs
    obtain ⟨j, hj, rfl⟩ := hs
    rw [List.mem_range'] at hj
    obtain ⟨i, hi, rfl⟩ := hj
    exact hall _ (by omega) (by omega)
  have hnodup : cands.Nodup :=
    List.Nodup.map (suffixCand_injective base) (List.nodup_range' 1 (used.length + 1))
  have hlen : cands.length = used.length + 1 := by simp [hcands]
  have hcard : cands.toFinset.card = used.length + 1 := by
    rw [List.toFinset_card_of_nodup hnodup, hlen]
  have hsubF : cands.toFinset ⊆ used.toFinset := by
    intro s hs
    rw [List.mem_toFinset] at hs ⊢
    exact hsub s hs
  have := Finset.card_le_card hsubF
  have h2 := List.toFinset_card_le used
  omega

theorem parsePdvList_ids (pdvs : List Node) :
    ∀ (index : ℕ) (used : List String),
      ((parsePdvList pdvs index used).map GasStation.id).Nodup ∧
      ∀ i ∈ (parsePdvList pdvs index used).map GasStation.id, i ∉ used := by
  induction pdvs with
  | nil => intro index used; simp [parsePdvList]
  | cons pdv rest ih =>
    intro index used
    obtain ⟨hnd, hnm⟩ := ih (index + 1) ((stationOfPdv used index pdv).id :: used)
    obtain ⟨base, hbase⟩ : ∃ b, (stationOfPdv used index pdv).id = dedupId used b := ⟨_, rfl⟩
    have hnotmem : (stationOfPdv used index pdv).id ∉ used := by
      rw [hbase]; exact dedupId_not_mem _ _
    by_cases hacc : stationAccepted (stationOfPdv used index pdv) = true
    · simp only [parsePdvList, hacc, if_true, List.singleton_append, List.map_cons]
      constructor
      · rw [List.nodup_cons]
        refine ⟨fun hin => ?_, hnd⟩
        exact hnm _ hin (List.mem_cons_self _ _)
      · intro i hi
        rcases List.mem_cons.mp hi with rfl | hi
        · exact hnotmem
        · exact fun hiu => hnm i hi (List.mem_cons_of_mem _ hiu)
    · simp only [parsePdvList, hacc, if_false, List.nil_append]
      exact ⟨hnd, fun i hi hiu => hnm i hi (List.mem_cons_of_mem _ hiu)⟩

theorem parseBlockList_ids (blocks : List FallbackBlock) :
    ∀ (index : ℕ) (used : List String),
      ((parseBlockList blocks index used).map GasStation.id).Nodup ∧
      ∀ i ∈ (parseBlockList blocks index used).map GasStation.id, i ∉ used := by
  induction blocks with
  | nil => intro index used; simp [parseBlockList]
  | cons b rest ih =>
    intro index used
    obtain ⟨hnd, hnm⟩ := ih (index + 1) ((stationOfBlock used index b).id :: used)
    obtain ⟨base, hbase⟩ : ∃ bb, (stationOfBlock used index b).id = dedupId used bb := ⟨_, rfl⟩
    have hnotmem : (stationOfBlock used index b).id ∉ used := by
      rw [hbase]; exact dedupId_not_mem _ _
    by_cases hacc : stationAccepted (stationOfBlock used index b) = true
    · simp only [parseBlockList, hacc, if_true, List.singleton_append, List.map_cons]
      constructor
      · rw [List.nodup_cons]
        refine ⟨fun hin => ?_, hnd⟩
        exact hnm _ hin (List.mem_cons_self _ _)
      · intro i hi
        rcases List.mem_cons.mp hi with rfl | hi
        · exact hnotmem
        · exact fun hiu => hnm i hi (List.mem_cons_of_mem _ hiu)
    · simp only [parseBlockList, hacc, if_false, List.nil_append]
      exact ⟨hnd, fun i hi hiu => hnm i hi (List.mem_cons_of_mem _ hiu)⟩

/-- C4.  In every parsed result list — primary parser or fallback parser —
the station ids are pairwise distinct: the per-parse used-id set and the
`-{n}` suffix loop guarantee each recorded id is fresh. -/
theorem station_ids_pairwise_distinct :
    (∀ (root : Node) (l : List GasStation),
      parseXMLData root = some l → (l.map GasStation.id).Nodup) ∧
    ∀ blocks : List FallbackBlock,
      ((parseXMLWithFallback blocks).map GasStation.id).Nodup := by
  constructor
  · intro root l h
    simp only [parseXMLData] at h
    split at h
    · exact absurd h (by simp)
    · obtain rfl : parsePdvList (probeAll possibleSelectors root) 0 [] = l :=
        Option.some.inj h
      exact (parsePdvList_ids _ 0 []).1
  · intro blocks
    exact (parseBlockList_ids (blocks.take 10000) 0 []).1

/-- Witness for C4: a concrete document with a duplicated raw id parses
to distinct final ids. -/
theorem station_ids_pairwise_distinct_witness :
    (((parseXMLData exRootC4).getD []).map GasStation.id).Nodup :=
  station_ids_pairwise_distinct.1 exRootC4 ((parseXMLData exRootC4).getD []) rfl

/-- C3.  For every raw fuel entry whose price text parses (after the
comma→dot replacement) to `p`: a retained fuel's normalized price is
`p / 1000` when `p > 10` and `p` otherwise, that normalized price is
strictly positive, and a non-positive `p` yields no fuel at all — in the
primary parser and in the fallback parser. -/
theorem fuel_price_normalization :
    (∀ (prix : Node) (p : ℚ),
      fuelPriceStrOfEl prix ≠ "" →
      jsParseFloat (jsReplaceFirst (fuelPriceStrOfEl prix) "," ".") = some p →
      (∀ f, processFuel prix = some f →
        f.price = some (if 10 < p then p / 1000 else p) ∧
        0 < (if 10 < p then p / 1000 else p)) ∧
      (p ≤ 0 → processFuel prix = none)) ∧
    ∀ (nom valeur : String) (maj : Option String) (p : ℚ),
      jsParseFloat (jsReplaceFirst valeur "," ".") = some p →
      (∀ f, processFuelFB (nom, valeur, maj) = some f →
        f.price = some (if 10 < p then p / 1000 else p) ∧
        0 < (if 10 < p then p / 1000 else p)) ∧
      (p ≤ 0 → processFuelFB (nom, valeur, maj) = none) := by
  have hnorm : ∀ p : ℚ, 0 < p →
      (0 : ℚ) < (if 10 < p then p / 1000 else p) := by
    intro p hp
    by_cases h10 : 10 < p
    · simp only [h10, if_true]; positivity
    · simpa [h10] using hp
  constructor
  · intro prix p hne hp
    constructor
    · intro f hf
      simp only [processFuel, hne, if_false, ite_false, hp] at hf
      by_cases hguard : strTruthy (fuelIdOfEl prix) = true ∧ numGtZero (some p) = true
      · rw [if_pos hguard] at hf
        have hpos : 0 < p := by simpa [numGtZero] using hguard.2
        cases hf
        exact ⟨by simp [normalizePrice, qDivNat_eq_div], hnorm p hpos⟩
      · rw [if_neg hguard] at hf
        exact absurd hf (by simp)
    · intro hple
      have hz : numGtZero (some p) = false := by
        simp only [numGtZero, decide_eq_false_iff_not]
        exact not_lt.mpr hple
      simp only [processFuel, hne, if_false, ite_false, hp, hz]
      simp
  · intro nom valeur maj p hp
    constructor
    · intro f hf
      simp only [processFuelFB, hp] at hf
      by_cases hguard : nom ≠ "" ∧ numGtZero (some p) = true
      · rw [if_pos hguard] at hf
        have hpos : 0 < p := by simpa [numGtZero] using hguard.2
        cases hf
        exact ⟨by simp [normalizePrice, qDivNat_eq_div], hnorm p hpos⟩
      · rw [if_neg hguard] at hf
        exact absurd hf (by simp)
    · intro hple
      have hz : numGtZero (some p) = false := by
        simp only [numGtZero, decide_eq_false_iff_not]
        exact not_lt.mpr hple
      simp only [processFuelFB, hp, hz]
      simp

/-- Witness for C3: the fuel element `exPrixC3` (`valeur = "1,750"`),
whose price text parses to `7/4`. -/
theorem fuel_price_normalization_witness :
    exFuelC3.price = some (if 10 < mkRat 7 4 then mkRat 7 4 / 1000 else mkRat 7 4) ∧
    (0 : ℚ) < (if 10 < mkRat 7 4 then mkRat 7 4 / 1000 else mkRat 7 4) :=
  (fuel_price_normalization.1 exPrixC3 (mkRat 7 4) (by decide) (by decide)).1
    exFuelC3 (by decide)

/-- C5.  `isStationOpen` semantics at an explicit instant: no
opening-hours data at all means open; for a single-range schedule with
parsed times `o`/`c`, an overnight range (`c < o`) is open iff
`t ≥ o ∨ t ≤ c`, otherwise iff `o ≤ t ≤ c`; in particular the range
`22:00`–`06:00` is open at `23:00` and closed at `10:00`. -/
theorem isOpen_semantics :
    (∀ (st : GasStation) (d : Weekday) (t : ℤ),
      st.openingHours = none → isStationOpenAt st d t = true) ∧
    (∀ (st : GasStation) (oh : OpeningHours) (ds : DaySchedule) (d : Weekday) (t : ℤ)
      (topen tclose : String) (o c : ℤ),
      st.openingHours = some oh →
      oh.get d = some ds →
      ds.closed = false →
      ds.hours = some [{ openT := topen, closeT := tclose }] →
      jsParseInt (jsReplaceFirst topen ":" "") = some o →
      jsParseInt (jsReplaceFirst tclose ":" "") = some c →
      (c < o → (isStationOpenAt st d t = true ↔ (o ≤ t ∨ t ≤ c))) ∧
      (o ≤ c → (isStationOpenAt st d t = true ↔ (o ≤ t ∧ t ≤ c)))) ∧
    (isStationOpenAt exStation22 .monday 2300 = true ∧
     isStationOpenAt exStation22 .monday 1000 = false) := by
  refine ⟨?_, ?_, by decide, by decide⟩
  · intro st d t h
    simp [isStationOpenAt, h]
  · intro st oh ds d t topen tclose o c hoh hget hclosed hhours ho hc
    simp only [isStationOpenAt, hoh, hget, hclosed, hhours, ho, hc, if_false,
      Bool.false_eq_true, List.length_cons, List.length_nil, List.any_cons, List.any_nil,
      Bool.or_false]
    constructor
    · intro hlt
      simp [intLt, intLe, hlt, not_le.mpr hlt]
    · intro hle
      have hnlt : ¬ (c < o) := not_lt.mpr hle
      simp [intLt, intLe, hnlt]

/-- Witness for C5: the overnight station `exStation22` at `23:00`. -/
theorem isOpen_semantics_witness :
    ((600 : ℤ) < 2200 →
      (isStationOpenAt exStation22 .monday 2300 = true ↔
        ((2200 : ℤ) ≤ 2300 ∨ (2300 : ℤ) ≤ 600))) ∧
    ((2200 : ℤ) ≤ 600 →
      (isStationOpenAt exStation22 .monday 2300 = true ↔
        ((2200 : ℤ) ≤ 2300 ∧ (2300 : ℤ) ≤ 600))) :=
  isOpen_semantics.2.1 exStation22 { monday := some exOvernightDay } exOvernightDay
    .monday 2300 "22:00" "06:00" 2200 600 rfl rfl rfl rfl (by decide) (by decide)

theorem fetchLoop_all_err :
    ∀ (l : List (Except String String)) (last : Option String) (e : String),
      (∀ a ∈ l, ∃ m, a = Except.error m) →
      l.getLast? = some (Except.error e) →
      fetchLoop l last = Except.error (mkFinalError (some e)) := by
  intro l
  induction l with
  | nil => intro last e _ hlast; simp at hlast
  | cons a rest ih =>
    intro last e hall hlast
    obtain ⟨m, rfl⟩ := hall a (List.mem_cons_self _ _)
    cases rest with
    | nil =>
      simp only [List.getLast?_singleton, Option.some.injEq, Except.error.injEq] at hlast
      subst hlast
      simp [fetchLoop]
    | cons b bs =>
      rw [List.getLast?_cons_cons] at hlast
      simp only [fetchLoop]
      exact ih (some m) e (fun x hx => hall x (List.mem_cons_of_mem _ hx)) hlast

/-- C7.  When every attempt fails, the fetch produces a single error
built from the most recent failure's detail plus the remediation text,
and never a payload. -/
theorem fetch_all_fail_aggregated :
    ∀ (attempts : List (Except String String)) (e : String),
      (∀ a ∈ attempts, ∃ m, a = Except.error m) →
      attempts.getLast? = some (Except.error e) →
      fetchGasStationData attempts = Except.error (mkFinalError (some e)) ∧
      e.data <:+: (mkFinalError (some e)).data ∧
      remediationText.data <:+: (mkFinalError (some e)).data ∧
      (fetchGasStationData attempts).isOk = false := by
  intro attempts e hall hlast
  have heq := fetchLoop_all_err attempts none e hall hlast
  refine ⟨heq, ?_, ?_, by rw [fetchGasStationData, heq]; rfl⟩
  · by_cases he : e = ""
    · subst he
      exact List.nil_infix
    · refine ⟨("Failed to fetch data from all endpoints. Last error: " : String).data,
        ((". \n\n" : String) ++ remediationText).data, ?_⟩
      simp [mkFinalError, strOrD, he, String.data_append, List.append_assoc]
  · refine ⟨("Failed to fetch data from all endpoints. Last error: " ++
      strOrD (some e) "Unknown error" ++ ". \n\n" : String).data, [], ?_⟩
    simp [mkFinalError, String.data_append, List.append_assoc]

/-- Witness for C7: the one-attempt list whose only outcome is the
failure `boom`. -/
theorem fetch_all_fail_aggregated_witness :
    fetchGasStationData [Except.error "boom"] =
      Except.error (mkFinalError (some "boom")) ∧
    ("boom" : String).data <:+: (mkFinalError (some "boom")).data ∧
    remediationText.data <:+: (mkFinalError (some "boom")).data ∧
    (fetchGasStationData [Except.error "boom"]).isOk = false :=
  fetch_all_fail_aggregated [Except.error "boom"] "boom"
    (fun a ha => ⟨"boom", by simpa using ha⟩) rfl

theorem stationOfPdv_latitude (used : List String) (index : ℕ) (pdv : Node) :
    (stationOfPdv used index pdv).latitude = convertCoord (jsParseFloat (latRawStr pdv)) :=
  rfl

theorem stationOfPdv_longitude (used : List String) (index : ℕ) (pdv : Node) :
    (stationOfPdv used index pdv).longitude = convertCoord (jsParseFloat (lonRawStr pdv)) :=
  rfl

theorem stationOfBlock_latitude (used : List String) (index : ℕ) (b : FallbackBlock) :
    (stationOfBlock used index b).latitude =
      convertCoord (jsParseFloat (strOrD (b.attr "latitude") "0")) :=
  rfl

theorem stationOfBlock_longitude (used : List String) (index : ℕ) (b : FallbackBlock) :
    (stationOfBlock used index b).longitude =
      convertCoord (jsParseFloat (strOrD (b.attr "longitude") "0")) :=
  rfl

theorem convertCoord_of_ne_zero {x : ℚ} (hx : x ≠ 0) :
    convertCoord (some x) = some (x / 100000) := by
  simp [convertCoord, numTruthy, hx, qDivNat_eq_div]

theorem convertCoord_absent (r : Option ℚ) (h : r = some 0 ∨ r = none) :
    convertCoord r = none := by
  rcases h with rfl | rfl <;> simp [convertCoord, numTruthy]

/-- C2 (amended).  Coordinate normalization is per-axis, not atomic: an
axis whose raw value parses nonzero is normalized to `raw / 100000`; an
axis whose raw value is `0` or unparseable is absent — independently of
the other axis, in both parsers. -/
theorem coordinate_axis_normalization :
    (∀ (used : List String) (index : ℕ) (pdv : Node),
      (∀ la lo : ℚ, jsParseFloat (latRawStr pdv) = some la → la ≠ 0 →
        jsParseFloat (lonRawStr pdv) = some lo → lo ≠ 0 →
        (stationOfPdv used index pdv).latitude = some (la / 100000) ∧
        (stationOfPdv used index pdv).longitude = some (lo / 100000)) ∧
      ((jsParseFloat (latRawStr pdv) = some 0 ∨ jsParseFloat (latRawStr pdv) = none) →
        (stationOfPdv used index pdv).latitude = none) ∧
      ((jsParseFloat (lonRawStr pdv) = some 0 ∨ jsParseFloat (lonRawStr pdv) = none) →
        (stationOfPdv used index pdv).longitude = none)) ∧
    ∀ (used : List String) (index : ℕ) (b : FallbackBlock),
      (∀ la lo : ℚ,
        jsParseFloat (strOrD (b.attr "latitude") "0") = some la → la ≠ 0 →
        jsParseFloat (strOrD (b.attr "longitude") "0") = some lo → lo ≠ 0 →
        (stationOfBlock used index b).latitude = some (la / 100000) ∧
        (stationOfBlock used index b).longitude = some (lo / 100000)) ∧
      ((jsParseFloat (strOrD (b.attr "latitude") "0") = some 0 ∨
          jsParseFloat (strOrD (b.attr "latitude") "0") = none) →
        (stationOfBlock used index b).latitude = none) ∧
      ((jsParseFloat (strOrD (b.attr "longitude") "0") = some 0 ∨
          jsParseFloat (strOrD (b.attr "longitude") "0") = none) →
        (stationOfBlock used index b).longitude = none) := by
  constructor
  · intro used index pdv
    refine ⟨fun la lo hla hla0 hlo hlo0 => ?_, fun h => ?_, fun h => ?_⟩
    · rw [stationOfPdv_latitude, stationOfPdv_longitude, hla, hlo,
        convertCoord_of_ne_zero hla0, convertCoord_of_ne_zero hlo0]
      exact ⟨rfl, rfl⟩
    · rw [stationOfPdv_latitude, convertCoord_absent _ h]
    · rw [stationOfPdv_longitude, convertCoord_absent _ h]
  · intro used index b
    refine ⟨fun la lo hla hla0 hlo hlo0 => ?_, fun h => ?_, fun h => ?_⟩
    · rw [stationOfBlock_latitude, stationOfBlock_longitude, hla, hlo,
        convertCoord_of_ne_zero hla0, convertCoord_of_ne_zero hlo0]
      exact ⟨rfl, rfl⟩
    · rw [stationOfBlock_latitude, convertCoord_absent _ h]
    · rw [stationOfBlock_longitude, convertCoord_absent _ h]

/-- Witness for the amended C2: both axes of `exPdvC2b` are normalized by
the fixed-point division. -/
theorem coordinate_axis_normalization_witness :
    (stationOfPdv [] 0 exPdvC2b).latitude = some ((4620100 : ℚ) / 100000) ∧
    (stationOfPdv [] 0 exPdvC2b).longitude = some ((520100 : ℚ) / 100000) :=
  (coordinate_axis_normalization.1 [] 0 exPdvC2b).1 4620100 520100
    (by decide) (by decide) (by decide) (by decide)

/-- Counterexample to C2 as stated: parsing `exRootC2` (raw longitude
exactly `0`, raw latitude `4620100`) yields one station with latitude
present and longitude absent — the coordinate pair is not atomic. -/
theorem coordinate_pair_not_atomic :
    ((parseXMLData exRootC2).getD []).map
      (fun s => (s.latitude.isSome, s.longitude.isSome)) = [(true, false)] := by
  decide

theorem serviceChildStep_nodup (services : List String) (child : Node)
    (h : services.Nodup) : (serviceChildStep services child).Nodup := by
  rw [serviceChildStep]
  by_cases hcond : (child.tagName != "" &&
      strIncludes (strToLower child.tagName) "service") = true
  · rw [if_pos hcond]
    show (match strOr (some (strTrim child.textContent))
        (strOr (child.getAttr "nom") (child.getAttr "name")) with
      | some s => if s ≠ "" ∧ ¬ services.contains s = true then services ++ [s] else services
      | none => services).Nodup
    cases hX : strOr (some (strTrim child.textContent))
        (strOr (child.getAttr "nom") (child.getAttr "name")) with
    | none => exact h
    | some s =>
      show (if s ≠ "" ∧ ¬ services.contains s = true then services ++ [s]
        else services).Nodup
      by_cases hs : s ≠ "" ∧ ¬ services.contains s = true
      · rw [if_pos hs]
        refine List.Nodup.append h (by simp) ?_
        intro x hx hx2
        rw [List.mem_singleton] at hx2
        subst hx2
        exact hs.2 (by simpa using hx)
      · rw [if_neg hs]
        exact h
  · rw [if_neg hcond]
    exact h

theorem foldl_serviceChildStep_nodup (cs : List Node) :
    ∀ acc : List String, acc.Nodup → (cs.foldl serviceChildStep acc).Nodup := by
  induction cs with
  | nil => intro acc h; simpa using h
  | cons c rest ih =>
    intro acc h
    rw [List.foldl_cons]
    exact ih _ (serviceChildStep_nodup acc c h)

/-- C6 (amended).  De-duplication by exact string match applies only to
the direct-child pass: that pass never appends a name already present, so
the final services list is duplicate-free whenever the selector-probe
pass alone produced no duplicates. -/
theorem services_nodup_of_pass_one_nodup (pdv : Node)
    (h : (servicesPassOne pdv).Nodup) : (servicesOfPdv pdv).Nodup := by
  rw [servicesOfPdv, servicesPassTwo]
  exact foldl_serviceChildStep_nodup _ _ h

/-- Witness for the amended C6: a station with a single service child. -/
theorem services_nodup_of_pass_one_nodup_witness :
    (servicesOfPdv exPdvC6b).Nodup :=
  services_nodup_of_pass_one_nodup exPdvC6b (by decide)

/-- Counterexample to C6 as stated: parsing `exRootC6` (two `<service>`
children with identical text) yields one station whose services list
repeats `Lavage` — the selector-probe pass does not de-duplicate. -/
theorem services_can_repeat :
    ((parseXMLData exRootC6).getD []).map GasStation.services = [["Lavage", "Lavage"]] ∧
    ¬ (["Lavage", "Lavage"] : List String).Nodup := by
  constructor
  · decide
  · decide

theorem mapFilterPred_coords {filters : MapFilters} {st : GasStation}
    (h : mapFilterPred filters st = true) :
    numTruthy st.latitude = true ∧ numTruthy st.longitude = true := by
  rw [mapFilterPred] at h
  by_cases hc : (!(numTruthy st.latitude) || !(numTruthy st.longitude)) = true
  · rw [if_pos hc] at h
    exact absurd h (by simp)
  · simp only [Bool.or_eq_true, Bool.not_eq_true'] at hc
    push_neg at hc
    exact ⟨by simpa using hc.1, by simpa using hc.2⟩

theorem mem_fsmBase {filters : MapFilters} {stations : List GasStation} {a : AnnStation}
    (h : a ∈ fsmBase filters stations) : mapFilterPred filters a.station = true := by
  rw [fsmBase] at h
  rw [List.mem_map] at h
  obtain ⟨st, hst, rfl⟩ := h
  exact (List.mem_filter.mp hst).2

theorem mem_fsmWithDistance {dist : ℚ → ℚ → ℚ → ℚ → ℚ} {filters : MapFilters}
    {l : List AnnStation} {a : AnnStation} (h : a ∈ fsmWithDistance dist filters l) :
    ∃ b ∈ l, a.station = b.station := by
  rw [fsmWithDistance] at h
  split at h
  · rename_i uLat uLon huLat huLon
    have hmap : ∀ x, x ∈ l.map (fun c =>
        { c with distance := some (dist uLat uLon
            (c.station.latitude.getD 0) (c.station.longitude.getD 0)) }) →
        ∃ b ∈ l, x.station = b.station := by
      intro x hx
      rw [List.mem_map] at hx
      obtain ⟨b, hb, rfl⟩ := hx
      exact ⟨b, hb, rfl⟩
    split at h
    · exact hmap a (List.mem_of_mem_filter h)
    · exact hmap a h
  · exact ⟨a, h, rfl⟩

theorem mem_of_ite_sort {α : Type} {cond : Bool} {le : α → α → Bool} {l : List α} {x : α}
    (h : x ∈ (if cond = true then stableSort le l else l)) : x ∈ l := by
  split at h
  · exact (mem_stableSort _ _ _).mp h
  · exact h

theorem mem_of_double_ite_sort {α : Type} {cond1 cond2 : Bool}
    {le1 le2 : α → α → Bool} {l : List α} {x : α}
    (h : x ∈ (if cond1 = true then stableSort le1 l
      else if cond2 = true then stableSort le2 l else l)) : x ∈ l := by
  split at h
  · exact (mem_stableSort _ _ _).mp h
  · split at h
    · exact (mem_stableSort _ _ _).mp h
    · exact h

theorem mem_filterStationsForMap {dist : ℚ → ℚ → ℚ → ℚ → ℚ} {stations : List GasStation}
    {filters : MapFilters} {a : AnnStation}
    (h : a ∈ filterStationsForMap dist stations filters) :
    mapFilterPred filters a.station = true := by
  rw [filterStationsForMap] at h
  dsimp only at h
  have hfs : ∀ x, x ∈ fsmWithDistance dist filters (fsmBase filters stations) →
      mapFilterPred filters x.station = true := by
    intro x hx
    obtain ⟨b, hb, hbe⟩ := mem_fsmWithDistance hx
    rw [hbe]
    exact mem_fsmBase hb
  split at h
  · exact hfs a (mem_of_double_ite_sort (List.take_subset _ _ h))
  · split at h
    · exact hfs a (mem_of_ite_sort (List.take_subset _ _ h))
    · exact hfs a (mem_of_ite_sort h)

theorem mem_topNBase {dist : ℚ → ℚ → ℚ → ℚ → ℚ} {stations : List GasStation}
    {filters : MapFilters} {a : AnnStation} (h : a ∈ topNBase dist stations filters) :
    mapFilterPred filters a.station = true := by
  rw [topNBase] at h
  rw [List.mem_map] at h
  obtain ⟨st, hst, rfl⟩ := h
  exact (List.mem_filter.mp hst).2

theorem mem_getTopNStations {dist : ℚ → ℚ → ℚ → ℚ → ℚ} {stations : List GasStation}
    {filters : MapFilters} {a : AnnStation}
    (h : a ∈ getTopNStations dist stations filters) :
    ∃ b ∈ topNBase dist stations filters, a = b := by
  rw [getTopNStations] at h
  split at h
  · exact absurd h (by simp)
  · have hl : ∀ x, x ∈ topNAfterDistance filters (topNBase dist stations filters) →
        x ∈ topNBase dist stations filters := by
      intro x hx
      rw [topNAfterDistance] at hx
      split at hx
      · exact List.mem_of_mem_filter hx
      · exact hx
    split at h
    · exact ⟨a, hl a ((mem_stableSort _ _ _).mp (List.take_subset _ _ h)), rfl⟩
    · split at h
      · exact ⟨a, hl a ((mem_stableSort _ _ _).mp (List.take_subset _ _ h)), rfl⟩
      · exact ⟨a, hl a (List.take_subset _ _ h), rfl⟩

/-- C9.  Every station returned by the map filter or by the Top-N query
has both coordinates present: stations lacking either coordinate are
dropped unconditionally, before any distance handling. -/
theorem query_results_have_coordinates :
    ∀ (dist : ℚ → ℚ → ℚ → ℚ → ℚ) (stations : List GasStation)
      (filters : MapFilters) (a : AnnStation),
      (a ∈ filterStationsForMap dist stations filters ∨
        a ∈ getTopNStations dist stations filters) →
      a.station.latitude.isSome = true ∧ a.station.longitude.isSome = true := by
  intro dist stations filters a h
  have hpred : mapFilterPred filters a.station = true := by
    rcases h with h | h
    · exact mem_filterStationsForMap h
    · obtain ⟨b, hb, rfl⟩ := mem_getTopNStations h
      exact mem_topNBase hb
  obtain ⟨hlat, hlon⟩ := mapFilterPred_coords hpred
  constructor
  · cases hx : a.station.latitude with
    | none => rw [hx] at hlat; simp [numTruthy] at hlat
    | some _ => rfl
  · cases hx : a.station.longitude with
    | none => rw [hx] at hlon; simp [numTruthy] at hlon
    | some _ => rfl

/-- Witness for C9: `stA` survives an empty filter set and indeed carries
both coordinates. -/
theorem query_results_have_coordinates_witness :
    stA.latitude.isSome = true ∧ stA.longitude.isSome = true :=
  query_results_have_coordinates dist0 [stA] { fuelType := "" }
    (AnnStation.mk stA none none) (Or.inl (by decide))

theorem cheapestFuelPrice_of_no_fuels {st : GasStation} (h : st.fuels = []) :
    cheapestFuelPrice st = none := by
  simp [cheapestFuelPrice, h, stableSort]

/-- C1 (amended).  With Top-N enabled, `orderBy = price` and
`fuelType = 'all'`, neither query function sorts: both return the first
`n` stations of the filtered, annotated list in input order (no
price-sort guard fires), while each returned station's
`selectedFuelPrice` annotation does carry its cheapest available fuel
price. -/
theorem topN_price_all_keeps_input_order :
    ∀ (dist : ℚ → ℚ → ℚ → ℚ → ℚ) (stations : List GasStation)
      (filters : MapFilters) (n : ℕ),
      filters.topN = some n →
      filters.topNOrderBy = OrderBy.price →
      filters.fuelType = "all" →
      getTopNStations dist stations filters =
        (topNAfterDistance filters (topNBase dist stations filters)).take n ∧
      filterStationsForMap dist stations filters =
        (fsmWithDistance dist filters (fsmBase filters stations)).take n ∧
      ∀ a ∈ getTopNStations dist stations filters,
        a.selectedFuelPrice = cheapestFuelPrice a.station := by
  intro dist stations filters n htop hord hft
  have hActive : fuelTypeActive filters = false := by
    simp [fuelTypeActive, hft]
  have hTopEq : getTopNStations dist stations filters =
      (topNAfterDistance filters (topNBase dist stations filters)).take n := by
    rw [getTopNStations, htop]
    rw [hord, hActive]
    simp
  refine ⟨hTopEq, ?_, ?_⟩
  · rw [filterStationsForMap, htop]
    rw [hord, hActive]
    simp
  · intro a ha
    obtain ⟨b, hb, rfl⟩ := mem_getTopNStations ha
    rw [topNBase] at hb
    rw [List.mem_map] at hb
    obtain ⟨st, _, rfl⟩ := hb
    simp only [hActive, Bool.false_eq_true, if_false, hft]
    by_cases hlen : st.fuels.length > 0
    · simp [hlen]
    · have hnil : st.fuels = [] := List.length_eq_zero.mp (by omega)
      simp [hlen, cheapestFuelPrice_of_no_fuels hnil]

/-- Witness for the amended C1: the single-station list `[stA]` with
`fC1`. -/
theorem topN_price_all_keeps_input_order_witness :
    getTopNStations dist0 [stA] fC1 =
      (topNAfterDistance fC1 (topNBase dist0 [stA] fC1)).take 1 ∧
    (AnnStation.mk stA none (some 2)).selectedFuelPrice = cheapestFuelPrice stA :=
  ⟨(topN_price_all_keeps_input_order dist0 [stA] fC1 1 rfl rfl rfl).1,
   (topN_price_all_keeps_input_order dist0 [stA] fC1 1 rfl rfl rfl).2.2
     (AnnStation.mk stA none (some 2)) (by decide)⟩

/-- Counterexample to C1 as stated: with `fuelType = 'all'`,
`topN = 1`, `orderBy = price`, the Top-N query returns the first station
of the input (`stA`, cheapest fuel `2`) although the spec-side ranking by
cheapest fuel price would return `stB` (cheapest fuel `1`). -/
theorem topN_price_all_not_sorted_by_cheapest :
    (getTopNStations dist0 [stA, stB] fC1).map AnnStation.station = [stA] ∧
    specTopNByCheapestPrice [stA, stB] 1 = [stB] ∧
    stA ≠ stB := by
  refine ⟨by decide, by decide, by decide⟩

theorem splitOnSeqGo_ne_nil (sep : List Char) (fuel : ℕ) (s : List Char) :
    splitOnSeqGo sep fuel s ≠ [] := by
  match fuel, s with
  | _, [] => simp [splitOnSeqGo]
  | 0, c :: cs => simp [splitOnSeqGo]
  | fuel + 1, c :: cs =>
    rw [splitOnSeqGo]
    split
    · simp
    · split <;> simp

theorem splitOnSeqGo_chars (sep : List Char) :
    ∀ (fuel : ℕ) (s : List Char), ∀ x ∈ splitOnSeqGo sep fuel s, ∀ c ∈ x, c ∈ s := by
  intro fuel
  induction fuel with
  | zero =>
    intro s x hx c hc
    cases s with
    | nil =>
      simp only [splitOnSeqGo, List.mem_singleton] at hx
      subst hx
      simp at hc
    | cons d ds =>
      simp only [splitOnSeqGo, List.mem_singleton] at hx
      subst hx
      exact hc
  | succ fuel ih =>
    intro s x hx c hc
    cases s with
    | nil =>
      simp only [splitOnSeqGo, List.mem_singleton] at hx
      subst hx
      simp at hc
    | cons d ds =>
      rw [splitOnSeqGo] at hx
      by_cases hcond : sep.isPrefixOf (d :: ds) = true ∧ sep ≠ []
      · rw [if_pos hcond] at hx
        rcases List.mem_cons.mp hx with rfl | hx
        · simp at hc
        · exact List.mem_cons_of_mem d
            (List.drop_subset _ _ (ih _ x hx c hc))
      · rw [if_neg hcond] at hx
        cases hgo : splitOnSeqGo sep fuel ds with
        | nil =>
          rw [hgo] at hx
          simp only [List.mem_singleton] at hx
          subst hx
          rw [List.mem_singleton] at hc
          subst hc
          exact List.mem_cons_self _ _
        | cons hh tt =>
          rw [hgo] at hx
          rcases List.mem_cons.mp hx with rfl | hx
          · rcases List.mem_cons.mp hc with rfl | hc
            · exact List.mem_cons_self _ _
            · exact List.mem_cons_of_mem d
                (ih ds hh (hgo ▸ List.mem_cons_self hh tt) c hc)
          · exact List.mem_cons_of_mem d
              (ih ds x (hgo ▸ List.mem_cons_of_mem hh hx) c hc)

theorem splitOnSeqGo_single (c : Char) :
    ∀ (fuel : ℕ) (s : List Char), s.length ≤ fuel →
      ∀ x ∈ splitOnSeqGo [c] fuel s, c ∉ x := by
  intro fuel
  induction fuel with
  | zero =>
    intro s hlen x hx
    obtain rfl : s = [] := List.length_eq_zero.mp (Nat.le_zero.mp hlen)
    simp only [splitOnSeqGo, List.mem_singleton] at hx
    subst hx
    simp
  | succ fuel ih =>
    intro s hlen x hx
    cases s with
    | nil =>
      simp only [splitOnSeqGo, List.mem_singleton] at hx
      subst hx
      simp
    | cons d ds =>
      have hds : ds.length ≤ fuel := by
        simp only [List.length_cons] at hlen
        omega
      rw [splitOnSeqGo] at hx
      by_cases hcond : ([c].isPrefixOf (d :: ds)) = true ∧ ([c] : List Char) ≠ []
      · rw [if_pos hcond] at hx
        have hdrop : List.drop (([c] : List Char).length - 1) ds = ds := by simp
        rw [hdrop] at hx
        rcases List.mem_cons.mp hx with rfl | hx
        · simp
        · exact ih ds hds x hx
      · rw [if_neg hcond] at hx
        have hcd : c ≠ d := by
          intro heq
          apply hcond
          refine ⟨?_, by simp⟩
          subst heq
          simp [List.isPrefixOf]
        cases hgo : splitOnSeqGo [c] fuel ds with
        | nil =>
          rw [hgo] at hx
          simp only [List.mem_singleton] at hx
          subst hx
          simpa using hcd
        | cons hh tt =>
          rw [hgo] at hx
          rcases List.mem_cons.mp hx with rfl | hx
          · intro hmem
            rcases List.mem_cons.mp hmem with rfl | hmem
            · exact hcd rfl
            · exact ih ds hds hh (hgo ▸ List.mem_cons_self _ _) hmem
          · exact ih ds hds x (hgo ▸ List.mem_cons_of_mem _ hx)

theorem mem_splitPass_chars {sep : List Char} {svs : List (List Char)} {x : List Char}
    (h : x ∈ splitPass sep svs) : ∀ c ∈ x, ∃ sv ∈ svs, c ∈ sv := by
  intro c hc
  rw [splitPass, List.mem_flatMap] at h
  obtain ⟨sv, hsv, hx⟩ := h
  by_cases hinc : containsSeq sep sv = true
  · rw [if_pos hinc, splitOnSeq] at hx
    exact ⟨sv, hsv, splitOnSeqGo_chars sep sv.length sv x hx c hc⟩
  · rw [if_neg hinc] at hx
    rw [List.mem_singleton] at hx
    exact ⟨sv, hsv, hx ▸ hc⟩

theorem splitPass_single {c : Char} {svs : List (List Char)} {x : List Char}
    (h : x ∈ splitPass [c] svs) : c ∉ x := by
  rw [splitPass, List.mem_flatMap] at h
  obtain ⟨sv, hsv, hx⟩ := h
  by_cases hinc : containsSeq [c] sv = true
  · rw [if_pos hinc, splitOnSeq] at hx
    exact splitOnSeqGo_single c sv.length sv le_rfl x hx
  · rw [if_neg hinc] at hx
    rw [List.mem_singleton] at hx
    subst hx
    exact containsSeq_single_false (by simpa using hinc)

theorem splitPass_preserves (sep : List Char) {c : Char} {svs : List (List Char)}
    (h : ∀ sv ∈ svs, c ∉ sv) : ∀ x ∈ splitPass sep svs, c ∉ x := by
  intro x hx hc
  obtain ⟨sv, hsv, hmem⟩ := mem_splitPass_chars hx c hc
  exact h sv hsv hmem

theorem dropWhile_dropWhile (p : Char → Bool) (l : List Char) :
    (l.dropWhile p).dropWhile p = l.dropWhile p := by
  induction l with
  | nil => rfl
  | cons d ds ih =>
    by_cases h : p d = true
    · simp [List.dropWhile_cons, h, ih]
    · simp [List.dropWhile_cons, h]

theorem head?_dropWhile (p : Char → Bool) (l : List Char) :
    ∀ c, (l.dropWhile p).head? = some c → p c = false := by
  induction l with
  | nil => intro c hc; simp at hc
  | cons d ds ih =>
    intro c hc
    by_cases h : p d = true
    · rw [List.dropWhile_cons, if_pos h] at hc
      exact ih c hc
    · rw [List.dropWhile_cons, if_neg h] at hc
      simp only [List.head?_cons, Option.some.injEq] at hc
      subst hc
      simpa using h

theorem dropWhile_eq_self_of_head (p : Char → Bool) (l : List Char)
    (h : ∀ c, l.head? = some c → p c = false) : l.dropWhile p = l := by
  cases l with
  | nil => rfl
  | cons d ds =>
    rw [List.dropWhile_cons, if_neg]
    simp [h d rfl]

theorem jsTrim_subset (l : List Char) : ∀ c ∈ jsTrim l, c ∈ l := by
  intro c hc
  rw [jsTrim, List.mem_reverse] at hc
  have h1 := (List.dropWhile_sublist isJsWS).subset hc
  rw [List.mem_reverse] at h1
  exact (List.dropWhile_sublist isJsWS).subset h1

theorem jsTrim_idem (l : List Char) : jsTrim (jsTrim l) = jsTrim l := by
  have hpref : jsTrim l <+: l.dropWhile isJsWS := by
    have h1 := @List.dropWhile_suffix Char ((l.dropWhile isJsWS).reverse) isJsWS
    have h2 := List.IsSuffix.reverse h1
    rw [List.reverse_reverse] at h2
    exact h2
  have hhead : ∀ c, (jsTrim l).head? = some c → isJsWS c = false := by
    intro c hc
    obtain ⟨t, ht⟩ := hpref
    cases hjs : jsTrim l with
    | nil => rw [hjs] at hc; simp at hc
    | cons a as =>
      rw [hjs] at hc ht
      simp only [List.head?_cons, Option.some.injEq] at hc
      subst hc
      apply head?_dropWhile isJsWS l
      rw [← ht]
      rfl
  have hstep : (jsTrim l).dropWhile isJsWS = jsTrim l :=
    dropWhile_eq_self_of_head _ _ hhead
  rw [jsTrim, hstep]
  show ((jsTrim l).reverse.dropWhile isJsWS).reverse = jsTrim l
  have hrev : (jsTrim l).reverse = (l.dropWhile isJsWS).reverse.dropWhile isJsWS := by
    rw [jsTrim, List.reverse_reverse]
  rw [hrev, dropWhile_dropWhile, ← hrev, List.reverse_reverse]

/-- C10.  `parseServices` returns only non-empty, whitespace-trimmed
strings containing none of the separator characters `/`, `-`, `,`, `;`;
the empty string yields the empty list. -/
theorem parseServices_output_clean :
    parseServices "" = [] ∧
    ∀ (s : String) (x : String), x ∈ parseServices s →
      x ≠ "" ∧ x.data = jsTrim x.data ∧
      ∀ ch ∈ x.data, ch ∉ (['/', '-', ',', ';'] : List Char) := by
  refine ⟨rfl, ?_⟩
  intro s x hx
  rw [parseServices] at hx
  by_cases hs : s = ""
  · rw [if_pos hs] at hx
    exact absurd hx (by simp)
  · rw [if_neg hs] at hx
    simp only [separators, List.foldl_cons, List.foldl_nil] at hx
    rw [List.mem_map] at hx
    obtain ⟨l, hl, rfl⟩ := hx
    rw [List.mem_filter] at hl
    obtain ⟨hl1, hlen⟩ := hl
    rw [List.mem_map] at hl1
    obtain ⟨y, hy, rfl⟩ := hl1
    have h4 : ∀ z ∈ splitPass ['/']
        (splitPass [' ', '/', ' '] (splitPass ['/', '/'] (splitPass [' ', '/', '/', ' ']
          [s.data]))), '/' ∉ z := fun z hz => splitPass_single hz
    have h5 := splitPass_preserves [' ', '-', ' '] h4
    have h6slash := splitPass_preserves ['-'] h5
    have h6 : ∀ z ∈ splitPass ['-'] (splitPass [' ', '-', ' '] (splitPass ['/']
        (splitPass [' ', '/', ' '] (splitPass ['/', '/'] (splitPass [' ', '/', '/', ' ']
          [s.data]))))), '-' ∉ z := fun z hz => splitPass_single hz
    have h7slash := splitPass_preserves [','] h6slash
    have h7dash := splitPass_preserves [','] h6
    have h7 : ∀ z ∈ splitPass [','] (splitPass ['-'] (splitPass [' ', '-', ' ']
        (splitPass ['/'] (splitPass [' ', '/', ' '] (splitPass ['/', '/']
          (splitPass [' ', '/', '/', ' '] [s.data])))))), ',' ∉ z :=
      fun z hz => splitPass_single hz
    have h8slash := splitPass_preserves [';'] h7slash
    have h8dash := splitPass_preserves [';'] h7dash
    have h8comma := splitPass_preserves [';'] h7
    have h8 : ∀ z ∈ splitPass [';'] (splitPass [','] (splitPass ['-']
        (splitPass [' ', '-', ' '] (splitPass ['/'] (splitPass [' ', '/', ' ']
          (splitPass ['/', '/'] (splitPass [' ', '/', '/', ' '] [s.data]))))))),
        ';' ∉ z := fun z hz => splitPass_single hz
    refine ⟨?_, ?_, ?_⟩
    · intro hmk
      have hdata := congrArg String.data hmk
      have : jsTrim y = [] := hdata
      rw [this] at hlen
      simp at hlen
    · show (String.mk (jsTrim y)).data = jsTrim (String.mk (jsTrim y)).data
      show jsTrim y = jsTrim (jsTrim y)
      exact (jsTrim_idem y).symm
    · intro ch hch hbad
      have hchy : ch ∈ y := jsTrim_subset y ch hch
      simp only [List.mem_cons, List.mem_singleton, List.not_mem_nil, or_false] at hbad
      rcases hbad with h | h | h | h
      · exact h8slash y hy (h ▸ hchy)
      · exact h8dash y hy (h ▸ hchy)
      · exact h8comma y hy (h ▸ hchy)
      · exact h8 y hy (h ▸ hchy)

/-- Witness for C10: `parseServices " a / b "` contains `a`. -/
theorem parseServices_output_clean_witness :
    ("a" : String) ≠ "" ∧ ("a" : String).data = jsTrim ("a" : String).data ∧
    ∀ ch ∈ ("a" : String).data, ch ∉ (['/', '-', ',', ';'] : List Char) :=
  parseServices_output_clean.2 " a / b " "a" (by decide)

theorem replaceAll_of_not_infix (p r : List Char) :
    ∀ s : List Char, ¬ p <:+: s → replaceAll p r s = s := by
  intro s
  induction s with
  | nil => intro _; simp [replaceAll]
  | cons c cs ih =>
    intro h
    rw [replaceAll]
    have hnp : ¬ (p.isPrefixOf (c :: cs) = true ∧ p ≠ []) := by
      rintro ⟨hp, -⟩
      exact h (List.IsPrefix.isInfix (List.isPrefixOf_iff_prefix.mp hp))
    rw [if_neg hnp]
    rw [ih (fun hi => h (List.infix_cons_iff.mpr (Or.inr hi)))]

theorem not_infix_replaceAll (a b q : Char) (hqa : q ≠ a) (hqb : q ≠ b) :
    ∀ (n : ℕ) (s : List Char), s.length ≤ n →
      ¬ [a, b] <:+: replaceAll [a, b] [q] s := by
  intro n
  induction n with
  | zero =>
    intro s hs
    obtain rfl : s = [] := List.length_eq_zero.mp (Nat.le_zero.mp hs)
    simp [replaceAll]
  | succ n ih =>
    intro s hs
    cases s with
    | nil => simp [replaceAll]
    | cons c cs =>
      have hcs : cs.length ≤ n := by
        simp only [List.length_cons] at hs
        omega
      rw [replaceAll]
      by_cases hcond : ([a, b].isPrefixOf (c :: cs) = true ∧ ([a, b] : List Char) ≠ [])
      · rw [if_pos hcond]
        intro hinf
        rcases List.infix_cons_iff.mp hinf with hpre | hinf2
        · rcases List.cons_prefix_cons.mp hpre with ⟨haq, -⟩
          exact hqa haq.symm
        · have hdlen : (List.drop (([a, b] : List Char).length - 1) cs).length ≤ n := by
            simp only [List.length_drop]
            omega
          exact ih _ hdlen hinf2
      · rw [if_neg hcond]
        intro hinf
        rcases List.infix_cons_iff.mp hinf with hpre | hinf2
        · rcases List.cons_prefix_cons.mp hpre with ⟨hac, hbpre⟩
          cases cs with
          | nil =>
            simp only [replaceAll] at hbpre
            exact absurd (List.prefix_nil.mp hbpre) (by simp)
          | cons d ds =>
            rw [replaceAll] at hbpre
            by_cases hcond2 : ([a, b].isPrefixOf (d :: ds) = true ∧ ([a, b] : List Char) ≠ [])
            · rw [if_pos hcond2] at hbpre
              rcases List.cons_prefix_cons.mp hbpre with ⟨hbq, -⟩
              exact hqb hbq.symm
            · rw [if_neg hcond2] at hbpre
              rcases List.cons_prefix_cons.mp hbpre with ⟨hbd, -⟩
              apply hcond
              refine ⟨?_, by simp⟩
              simp [List.isPrefixOf, hac, hbd]
        · exact ih cs hcs hinf2

theorem applyFixes_append (t1 t2 : List (List Char × List Char)) (s : List Char) :
    applyFixes (t1 ++ t2) s = applyFixes t2 (applyFixes t1 s) := by
  simp [applyFixes, List.foldl_append]

/-- C8.  The em-dash entry of the repair table (index 4) can never change
the text: the earlier `â€` entry globally consumes every occurrence of the
two-character pattern that both dash entries begin with, so for every
input the full table and the table with the em-dash rule removed produce
the same output. -/
theorem em_dash_rule_is_dead :
    ∀ s : List Char, applyEncodingFixes s = applyFixes (encodingFixes.eraseIdx 4) s := by
  intro s
  have hsplit : encodingFixes =
      (encodingFixes.take 4) ++ (['â', '€', '"'], ['—']) :: (encodingFixes.drop 5) := by
    rfl
  have hsplit2 : encodingFixes.eraseIdx 4 =
      (encodingFixes.take 4) ++ (encodingFixes.drop 5) := by
    rfl
  set y := replaceAll ['â', '€'] ['"']
    (replaceAll ['â', '€', 'œ'] ['"'] (replaceAll ['â', '€', '™'] ['\''] s)) with hy
  have hy3 : ¬ ['â', '€'] <:+: y :=
    not_infix_replaceAll 'â' '€' '"' (by decide) (by decide) _ _ le_rfl
  have hpre45 : (['â', '€'] : List Char) <+: ['â', '€', '"'] := by decide
  have h4eq : replaceAll ['â', '€', '"'] ['–'] y = y :=
    replaceAll_of_not_infix _ _ y
      (fun hin => hy3 ((List.IsPrefix.isInfix hpre45).trans hin))
  have h5eq : replaceAll ['â', '€', '"'] ['—'] y = y :=
    replaceAll_of_not_infix _ _ y
      (fun hin => hy3 ((List.IsPrefix.isInfix hpre45).trans hin))
  have htake : applyFixes (encodingFixes.take 4) s = y := by
    have ht4 : encodingFixes.take 4 =
        [(['â', '€', '™'], ['\'']), (['â', '€', 'œ'], ['"']),
         (['â', '€'], ['"']), (['â', '€', '"'], ['–'])] := rfl
    rw [ht4]
    simp only [applyFixes, List.foldl_cons, List.foldl_nil]
    exact h4eq
  calc applyEncodingFixes s
      = applyFixes ((encodingFixes.take 4) ++
          (['â', '€', '"'], ['—']) :: (encodingFixes.drop 5)) s := by
        rw [applyEncodingFixes, ← hsplit]
    _ = applyFixes ((['â', '€', '"'], ['—']) :: (encodingFixes.drop 5))
          (applyFixes (encodingFixes.take 4) s) := applyFixes_append _ _ _
    _ = applyFixes (encodingFixes.drop 5) (replaceAll ['â', '€', '"'] ['—'] y) := by
        rw [htake]
        simp only [applyFixes, List.foldl_cons]
    _ = applyFixes (encodingFixes.drop 5) y := by rw [h5eq]
    _ = applyFixes ((encodingFixes.take 4) ++ (encodingFixes.drop 5)) s := by
        rw [applyFixes_append, htake]
    _ = applyFixes (encodingFixes.eraseIdx 4) s := by rw [hsplit2]

end GasView
